import Mathlib

/-!
Soft body simulation: the mass-spring grid and its integrator.

A shallow embedding of `createSoftBody` and `updatePhysics` of `src/main.cpp`.

* The arithmetic of C++ `float` is a parameter.  Every definition of the model is written once,
  over a type `F` that only carries the operations the source uses (`+`, `-`, `*`, `/`, unary
  minus, `<`, the conversion from `int` and decimal literals), with no law assumed.  It is
  instantiated in two ways:
  - with `F32`, a model of IEEE 754 binary32 with round to nearest, ties to even, infinities and
    NaN: this is the arithmetic the program runs, and a literal such as `0.016` then denotes
    `0.016f`;
  - with a linearly ordered field (`ℚ` to evaluate, `ℝ` for the real reading): this is the
    reading "as exact real arithmetic".
  A theorem proved for every `F` holds of the program as it runs; a theorem proved over an
  ordered field holds of the exact reading only, and says so.
* `std::sqrt` comes from the C++ library, so it is a parameter `sqrt : F → F` (`F32.sqrt` for
  binary32); a theorem that needs a property of the square root states it as a hypothesis.
* C++ `int` is read as `Int` (the program is only defined while `rows * cols` fits an `int`).
* The global vectors `particles` and `springs` become the two fields of an explicit `State`.
* `particles[s.a]` on a `std::vector` is undefined outside the vector, and a quotient by a zero
  divisor has no value in exact arithmetic: both are modelled by `none`.  The source divides
  only under the test `dist > 0.0001f`, so the second case is never reached.
-/

namespace SoftBody

/-- The `struct Particle` of the source: position, velocity and the pinned flag. -/
structure Particle (F : Type) where
  x : F
  y : F
  vx : F
  vy : F
  pinned : Bool
  deriving DecidableEq

/-- The `struct Spring` of the source: the two particle indices, rest length and stiffness. -/
structure Spring (F : Type) where
  a : Int
  b : Int
  restLength : F
  k : F
  deriving DecidableEq

/-- The two global vectors `particles` and `springs`. -/
structure State (F : Type) where
  particles : List (Particle F)
  springs : List (Spring F)
  deriving DecidableEq

/-- The state before `createSoftBody` has run: both vectors empty. -/
def State.empty {F : Type} : State F := { particles := [], springs := [] }

section Model

variable {F : Type} [Add F] [Sub F] [Mul F] [Div F] [Neg F] [Zero F] [IntCast F] [OfScientific F]
  [LT F] [DecidableRel (fun a b : F => a < b)] [DecidableEq F]

/-- The constant `const float GRAVITY = -1.8f;`. -/
def GRAVITY : F := -1.8

/-- The constant `const float TIMESTEP = 0.016f;`. -/
def TIMESTEP : F := 0.016

/-- The loop `for (int i = 0; i < n; i++) body(i)` threading a value through the iterations. -/
def forLoop {σ : Type} (n : Int) (body : Int → σ → σ) (init : σ) : σ :=
  (List.range n.toNat).foldl (fun acc (i : Nat) => body (i : Int) acc) init

/-- The particle pushed by the body of the first loop nest of `createSoftBody`. -/
def mkParticle (rows cols : Int) (spacing : F) (i j : Int) : Particle F :=
  { x := (j : F) * spacing - ((cols : F) * spacing) / 2.0
    y := (i : F) * spacing + 0.5
    vx := 0.0
    vy := 0.0
    pinned := decide (i = rows - 1 ∧ (j = 0 ∨ j = cols - 1)) }

/-- The body of the second loop nest of `createSoftBody`: up to two `push_back`s. -/
def pushSprings (rows cols : Int) (spacing stiffness : F) (i j : Int)
    (springs : List (Spring F)) : List (Spring F) :=
  let idx : Int := i * cols + j
  let springs1 :=
    if j < cols - 1 then
      springs ++ [{ a := idx, b := idx + 1, restLength := spacing, k := stiffness }]
    else springs
  if i < rows - 1 then
    springs1 ++ [{ a := idx, b := idx + cols, restLength := spacing, k := stiffness }]
  else springs1

/-- The function `createSoftBody(rows, cols, spacing, stiffness)`: it appends to both vectors. -/
def createSoftBody (rows cols : Int) (spacing stiffness : F) (st : State F) : State F :=
  { particles :=
      forLoop rows (fun i ps =>
        forLoop cols (fun j ps => ps ++ [mkParticle rows cols spacing i j]) ps) st.particles
    springs :=
      forLoop rows (fun i sp =>
        forLoop cols (fun j sp => pushSprings rows cols spacing stiffness i j sp) sp) st.springs }

/-- The lookup `particles[i]` with an `int` index: no value outside the vector. -/
def getParticle (ps : List (Particle F)) (i : Int) : Option (Particle F) :=
  if 0 ≤ i then ps[i.toNat]? else none

/-- The quotient `x / y`; a zero divisor gives no value. -/
def checkedDiv (x y : F) : Option F :=
  if y = 0 then none else some (x / y)

/-- The body of the first loop of `updatePhysics`, for one spring.
`p1` and `p2` are references into the vector, so the second update reads the vector as the
first one left it. -/
def applySpring (sqrt : F → F) (ps : List (Particle F)) (s : Spring F) :
    Option (List (Particle F)) := do
  let p1 ← getParticle ps s.a
  let p2 ← getParticle ps s.b
  let dx := p2.x - p1.x
  let dy := p2.y - p1.y
  let dist := sqrt (dx * dx + dy * dy)
  let diff := dist - s.restLength
  if dist > 0.0001 then
    let force := s.k * diff
    let ux ← checkedDiv dx dist
    let uy ← checkedDiv dy dist
    let fx := ux * force
    let fy := uy * force
    let ps1 :=
      if !p1.pinned then
        ps.set s.a.toNat { p1 with vx := p1.vx + fx * TIMESTEP, vy := p1.vy + fy * TIMESTEP }
      else ps
    let q2 ← getParticle ps1 s.b
    let ps2 :=
      if !q2.pinned then
        ps1.set s.b.toNat { q2 with vx := q2.vx - fx * TIMESTEP, vy := q2.vy - fy * TIMESTEP }
      else ps1
    pure ps2
  else
    pure ps

/-- Pass 1 of `updatePhysics`: `for (auto &s : springs)`. -/
def springPass (sqrt : F → F) (springs : List (Spring F)) (ps : List (Particle F)) :
    Option (List (Particle F)) :=
  springs.foldlM (applySpring sqrt) ps

/-- The body of the second loop of `updatePhysics`, for one particle. -/
def integrate (p : Particle F) : Particle F :=
  if p.pinned then p
  else
    let vy := p.vy + GRAVITY * TIMESTEP
    let x := p.x + p.vx * TIMESTEP
    let y := p.y + vy * TIMESTEP
    if y < -0.9 then
      { p with x := x, y := -0.9, vy := vy * -0.3 }
    else
      { p with x := x, y := y, vy := vy }

/-- Pass 2 of `updatePhysics`: `for (auto &p : particles)`. -/
def integratePass (ps : List (Particle F)) : List (Particle F) :=
  ps.map integrate

/-- The function `updatePhysics()`: the spring pass, then gravity, integration and the floor. -/
def updatePhysics (sqrt : F → F) (st : State F) : Option (State F) := do
  let ps ← springPass sqrt st.springs st.particles
  pure { particles := integratePass ps, springs := st.springs }

/-- The main loop calling `updatePhysics()` `n` times in a row. -/
def updatePhysicsN (sqrt : F → F) : Nat → State F → Option (State F)
  | 0, st => some st
  | n + 1, st => (updatePhysics sqrt st).bind (updatePhysicsN sqrt n)

/-- Every spring of the state indexes inside the particle vector. -/
def SpringsInRange (st : State F) : Prop :=
  ∀ s ∈ st.springs,
    0 ≤ s.a ∧ s.a < (st.particles.length : Int) ∧ 0 ≤ s.b ∧ s.b < (st.particles.length : Int)

/-! The words of the spec on the spring force, to be compared with `applySpring`. -/

/-- The spec's `dist = |d|` with `d = pos[b] - pos[a]`, for `p1 = particles[a]`,
`p2 = particles[b]`. -/
def specDist (sqrt : F → F) (p1 p2 : Particle F) : F :=
  sqrt ((p2.x - p1.x) * (p2.x - p1.x) + (p2.y - p1.y) * (p2.y - p1.y))

/-- The x component of the spec's force vector: `force = k * diff` with
`diff = dist - restLength`, then `f = (d / dist) * force`. -/
def specForceX (sqrt : F → F) (s : Spring F) (p1 p2 : Particle F) : F :=
  (p2.x - p1.x) / specDist sqrt p1 p2 * (s.k * (specDist sqrt p1 p2 - s.restLength))

/-- The y component of the spec's force vector: `force = k * diff` with
`diff = dist - restLength`, then `f = (d / dist) * force`. -/
def specForceY (sqrt : F → F) (s : Spring F) (p1 p2 : Particle F) : F :=
  (p2.y - p1.y) / specDist sqrt p1 p2 * (s.k * (specDist sqrt p1 p2 - s.restLength))

/-- The spec's effect of a spring on its first endpoint: `+f*dt` on the velocity unless pinned. -/
def specKickA (sqrt : F → F) (s : Spring F) (p1 p2 : Particle F) : Particle F :=
  if p1.pinned then p1
  else { p1 with vx := p1.vx + specForceX sqrt s p1 p2 * TIMESTEP,
                 vy := p1.vy + specForceY sqrt s p1 p2 * TIMESTEP }

/-- The spec's effect of a spring on its second endpoint: `-f*dt` on the velocity unless pinned. -/
def specKickB (sqrt : F → F) (s : Spring F) (p1 p2 : Particle F) : Particle F :=
  if p2.pinned then p2
  else { p2 with vx := p2.vx - specForceX sqrt s p1 p2 * TIMESTEP,
                 vy := p2.vy - specForceY sqrt s p1 p2 * TIMESTEP }

/-! Auxiliary notions used by the proofs. -/

/-- The springs pushed by `pushSprings` at grid position `(i, j)`, as a list of their own. -/
def springsAt (rows cols : Int) (spacing stiffness : F) (i j : Int) : List (Spring F) :=
  (if j < cols - 1 then
      [{ a := i * cols + j, b := i * cols + j + 1, restLength := spacing, k := stiffness }]
    else []) ++
  (if i < rows - 1 then
      [{ a := i * cols + j, b := i * cols + j + cols, restLength := spacing, k := stiffness }]
    else [])

/-- The vector `ps2` keeps the frame of `ps`: same size, and at every index the same position
and pinned flag, a pinned particle being wholly unchanged. -/
def Frame {F : Type} (ps ps2 : List (Particle F)) : Prop :=
  ps2.length = ps.length ∧
  ∀ (i : Nat) (p : Particle F), ps[i]? = some p →
    ∃ q, ps2[i]? = some q ∧ q.x = p.x ∧ q.y = p.y ∧ q.pinned = p.pinned ∧
      (p.pinned = true → q = p)

/-- An `int` index inside a vector of `len` elements. -/
def InRange (len : Nat) (i : Int) : Prop := 0 ≤ i ∧ i < (len : Int)

end Model

/-! The arithmetic of the program: IEEE 754 binary32. -/

/-- A binary32 value.  Every finite binary32 number is an integer multiple of `2^-149`, the
smallest subnormal, so a finite value is stored as that integer: `fin k` is `k * 2^-149`.  The
other values are the two infinities (`inf true` is the negative one) and NaN.  The two zeros
are one value here: they compare equal, and the operations of the program tell them apart only
in a quotient by zero, which the program never forms. -/
inductive F32 where
  | fin (k : Int)
  | inf (negative : Bool)
  | nan
  deriving DecidableEq

namespace F32

/-- The number of binary digits of `n`, counted with `fuel` steps at most. -/
def bitLenLoop : Nat → Nat → Nat → Nat
  | 0, _, acc => acc
  | fuel + 1, n, acc => if n = 0 then acc else bitLenLoop fuel (n / 2) (acc + 1)

/-- The number of binary digits of `n`. -/
def bitLen (n : Nat) : Nat := bitLenLoop n n 0

/-- Round the non-negative rational `n / d`, counted in units of `2^-149`, to the nearest
binary32 magnitude, ties to the even significand: below `2^24` units the grid is the integers
(subnormals and the first binade), above it a value of `b` digits is rounded to a multiple of
`2^(b - 24)`.  The result is `none` when the rounded magnitude reaches `2^128`. -/
def roundUnits (n d : Nat) : Option Nat :=
  let q := n / d
  let shift := bitLen q - 24
  let d2 := d <<< shift
  let q2 := n / d2
  let r2 := n % d2
  let up := decide (d2 < 2 * r2) || (decide (2 * r2 = d2) && decide (q2 % 2 = 1))
  let k := (if up then q2 + 1 else q2) <<< shift
  if k < 2 ^ 128 * 2 ^ 149 then some k else none

/-- The binary32 value nearest to the rational `± n / d` units of `2^-149`; an infinity on
overflow. -/
def ofQuotient (negative : Bool) (n d : Nat) : F32 :=
  match roundUnits n d with
  | some k => fin (if negative then -(k : Int) else (k : Int))
  | none => inf negative

/-- The integer square root of `n`, found digit by digit from bit `b - 1` down. -/
def isqrtLoop : Nat → Nat → Nat → Nat
  | 0, _, r => r
  | b + 1, n, r => isqrtLoop b n (if (r + 2 ^ b) * (r + 2 ^ b) ≤ n then r + 2 ^ b else r)

/-- The integer square root of `n`: the largest `s` with `s * s ≤ n`. -/
def isqrt (n : Nat) : Nat := isqrtLoop (bitLen n / 2 + 1) n 0

/-- Unary minus. -/
def neg : F32 → F32
  | fin k => fin (-k)
  | inf s => inf (!s)
  | nan => nan

/-- Addition: the exact sum, rounded. -/
def add : F32 → F32 → F32
  | fin a, fin b => ofQuotient (decide (a + b < 0)) (a + b).natAbs 1
  | fin _, inf s => inf s
  | inf s, fin _ => inf s
  | inf s, inf t => if s = t then inf s else nan
  | _, _ => nan

/-- Subtraction: the exact difference, rounded. -/
def sub (a b : F32) : F32 := add a (neg b)

/-- Multiplication: the exact product, rounded; `0 * inf` is NaN. -/
def mul : F32 → F32 → F32
  | fin a, fin b => ofQuotient (decide (a * b < 0)) (a * b).natAbs (2 ^ 149)
  | fin a, inf s => if a = 0 then nan else inf (xor (decide (a < 0)) s)
  | inf s, fin b => if b = 0 then nan else inf (xor s (decide (b < 0)))
  | inf s, inf t => inf (xor s t)
  | _, _ => nan

/-- Division: the exact quotient, rounded; `inf / inf` and `0 / 0` are NaN. -/
def div : F32 → F32 → F32
  | fin a, fin b =>
    if b = 0 then (if a = 0 then nan else inf (decide (a < 0)))
    else ofQuotient (xor (decide (a < 0)) (decide (b < 0))) (a.natAbs <<< 149) b.natAbs
  | fin _, inf _ => fin 0
  | inf s, fin b => inf (xor s (decide (b < 0)))
  | _, _ => nan

/-- The function `std::sqrt` on binary32: the exact square root, rounded.  With `s` the integer
square root of `k * 2^149`, the root of `k` units is `s` units when `s * s` is exact and lies
strictly between `s` and `s + 1` units otherwise, where it rounds as `s + 1/2` does. -/
def sqrt : F32 → F32
  | fin k =>
    if k < 0 then nan
    else
      ofQuotient false
        (2 * isqrt (k.natAbs <<< 149)
          + (if isqrt (k.natAbs <<< 149) * isqrt (k.natAbs <<< 149) = k.natAbs <<< 149
              then 0 else 1)) 2
  | inf s => if s then nan else inf false
  | nan => nan

/-- The comparison `a < b`: false as soon as one side is NaN. -/
def lt : F32 → F32 → Bool
  | fin a, fin b => decide (a < b)
  | fin _, inf s => !s
  | inf s, fin _ => s
  | inf s, inf t => s && !t
  | _, _ => false

/-- The comparison `a <= b`: false as soon as one side is NaN. -/
def le : F32 → F32 → Bool
  | fin a, fin b => decide (a ≤ b)
  | fin _, inf s => !s
  | inf s, fin _ => s
  | inf s, inf t => s || !t
  | _, _ => false

/-- The conversion of an `int` to `float`. -/
def ofInt (n : Int) : F32 := ofQuotient (decide (n < 0)) (n.natAbs <<< 149) 1

/-- The value of the decimal literal `m * 10^e` (`m / 10^e` when `negExp`), as in `0.016f`. -/
def ofDecimal (m : Nat) (negExp : Bool) (e : Nat) : F32 :=
  if negExp then ofQuotient false (m <<< 149) (10 ^ e)
  else ofQuotient false ((m * 10 ^ e) <<< 149) 1

/-- The binary32 value `m * 2^e`, for a significand `|m| < 2^24` and `-149 ≤ e`. -/
def dyadic (m : Int) (e : Int) : F32 := fin (m * ((1 <<< (e + 149).toNat : Nat) : Int))

/-- The exact rational value of a finite binary32 number. -/
def toRat : F32 → Option ℚ
  | fin k => some ((k : ℚ) / 2 ^ 149)
  | _ => none

instance : Add F32 := ⟨add⟩
instance : Sub F32 := ⟨sub⟩
instance : Mul F32 := ⟨mul⟩
instance : Div F32 := ⟨div⟩
instance : Neg F32 := ⟨neg⟩
instance : Zero F32 := ⟨fin 0⟩
instance : IntCast F32 := ⟨ofInt⟩
instance : OfScientific F32 := ⟨ofDecimal⟩
instance : LT F32 := ⟨fun a b => lt a b = true⟩
instance : LE F32 := ⟨fun a b => le a b = true⟩
instance : DecidableRel (fun a b : F32 => a < b) :=
  fun a b => inferInstanceAs (Decidable (lt a b = true))
instance : DecidableRel (fun a b : F32 => a ≤ b) :=
  fun a b => inferInstanceAs (Decidable (le a b = true))

end F32

/-! Concrete data over `ℚ` for the worked examples. -/

/-- A pinned particle used in the worked examples. -/
def demoAnchor : Particle ℚ := { x := 0, y := 1, vx := 0, vy := 0, pinned := true }

/-- An unpinned particle just above the floor and moving down, used in the worked examples. -/
def demoFaller : Particle ℚ := { x := 0, y := -17 / 20, vx := 0, vy := -5, pinned := false }

/-- An unpinned particle at the origin, used in the worked examples. -/
def demoLeft : Particle ℚ := { x := 0, y := 0, vx := 0, vy := 0, pinned := false }

/-- An unpinned particle at distance 5 from the origin, used in the worked examples. -/
def demoRight : Particle ℚ := { x := 3, y := 4, vx := 0, vy := 0, pinned := false }

/-- A spring between the particles of index 0 and 1, used in the worked examples. -/
def demoSpring : Spring ℚ := { a := 0, b := 1, restLength := 1, k := 10 }

/-- A two-particle state with one pinned particle, one falling particle and one spring. -/
def demoState : State ℚ :=
  { particles := [demoAnchor, demoFaller], springs := [demoSpring] }

/-! Concrete binary32 data for the worked examples. -/

/-- Two unpinned particles at rest at `(0, 0)` and `(1e20f, 0)` joined by one spring of rest
length 1 and stiffness 1: every value is finite. -/
def farState : State F32 :=
  { particles := [{ x := 0.0, y := 0.0, vx := 0.0, vy := 0.0, pinned := false },
                  { x := 1e20, y := 0.0, vx := 0.0, vy := 0.0, pinned := false }]
    springs := [{ a := 0, b := 1, restLength := 1.0, k := 1.0 }] }

/-- One unpinned particle at `y = -0.5f` falling at `vy = -100`, and no spring. -/
def fallingState : State F32 :=
  { particles := [{ x := 0.0, y := -0.5, vx := 0.0, vy := -100.0, pinned := false }]
    springs := [] }

/-- An unpinned particle at rest at the origin. -/
def nearLeft : Particle F32 := { x := 0.0, y := 0.0, vx := 0.0, vy := 0.0, pinned := false }

/-- An unpinned particle at rest at `(0x1.f7508cp-15, 0x1.4f8b86p-14)`, a little more than
`0.0001` away from the origin. -/
def nearRight : Particle F32 :=
  { x := F32.dyadic 8246307 (-37), y := F32.dyadic 10995139 (-37), vx := 0.0, vy := 0.0,
    pinned := false }

/-- An unpinned particle at rest whose `x` is `+inf`. -/
def lostParticle : Particle F32 :=
  { x := F32.inf false, y := 0.0, vx := 0.0, vy := 0.0, pinned := false }

/-- A spring between the particles of index 0 and 1, of rest length 1 and stiffness 100. -/
def stiffSpring : Spring F32 := { a := 0, b := 1, restLength := 1.0, k := 100.0 }

/-! What the spring pass keeps: sizes, positions, pinned flags and pinned particles. -/

theorem frame_refl {F : Type} (ps : List (Particle F)) : Frame ps ps :=
  ⟨rfl, fun _ p h => ⟨p, h, rfl, rfl, rfl, fun _ => rfl⟩⟩

theorem frame_trans {F : Type}
    {ps ps2 ps3 : List (Particle F)} (h12 : Frame ps ps2) (h23 : Frame ps2 ps3) :
    Frame ps ps3 := by
  refine ⟨h23.1.trans h12.1, fun i p hp => ?_⟩
  obtain ⟨q, hq, hx, hy, hpin, hsame⟩ := h12.2 i p hp
  obtain ⟨r, hr, hx2, hy2, hpin2, hsame2⟩ := h23.2 i q hq
  refine ⟨r, hr, hx2.trans hx, hy2.trans hy, hpin2.trans hpin, fun hp1 => ?_⟩
  have hqp := hsame hp1
  rw [hsame2 (by rw [hpin]; exact hp1), hqp]

theorem frame_set_velocity {F : Type} {ps : List (Particle F)} {n : Nat} {p q : Particle F}
    (hp : ps[n]? = some p) (hpin : p.pinned = false) (hx : q.x = p.x) (hy : q.y = p.y)
    (hq : q.pinned = false) : Frame ps (ps.set n q) := by
  refine ⟨List.length_set _ _ _, fun i r hr => ?_⟩
  by_cases hin : n = i
  · subst hin
    have hlt : n < ps.length := by
      rcases Nat.lt_or_ge n ps.length with h | h
      · exact h
      · rw [List.getElem?_eq_none h] at hp; cases hp
    rw [hp] at hr
    cases hr
    exact ⟨q, List.getElem?_set_self hlt, hx, hy, hq.trans hpin.symm,
      fun h => by rw [hpin] at h; cases h⟩
  · exact ⟨r, by rw [List.getElem?_set_ne hin]; exact hr, rfl, rfl, rfl, fun _ => rfl⟩

theorem getParticle_of_inRange {F : Type}
    {ps : List (Particle F)} {i : Int} (h : InRange ps.length i) :
    ∃ p, getParticle ps i = some p ∧ ps[i.toNat]? = some p := by
  obtain ⟨h0, h1⟩ := h
  have hlt : i.toNat < ps.length := by omega
  refine ⟨ps[i.toNat], ?_, List.getElem?_eq_getElem hlt⟩
  simp [getParticle, h0, List.getElem?_eq_getElem hlt]

theorem getParticle_some {F : Type} {ps : List (Particle F)} {i : Int} {p : Particle F}
    (h : getParticle ps i = some p) : InRange ps.length i ∧ ps[i.toNat]? = some p := by
  unfold getParticle at h
  split_ifs at h with h0
  have hlt : i.toNat < ps.length := by
    rcases Nat.lt_or_ge i.toNat ps.length with h1 | h1
    · exact h1
    · rw [List.getElem?_eq_none h1] at h; cases h
  exact ⟨⟨h0, by omega⟩, h⟩

theorem small_pos {F : Type} [LinearOrderedField F] : (0 : F) < 0.0001 := by norm_num

theorem guard_exact {F : Type} [LinearOrderedField F] : ¬ ((0.0001 : F) < 0) :=
  not_lt.mpr (le_of_lt small_pos)

theorem floor_exact {F : Type} [LinearOrderedField F] : ¬ ((-0.9 : F) < -0.9) :=
  lt_irrefl _

theorem applySpring_skip {F : Type} [Add F] [Sub F] [Mul F] [Div F] [Neg F] [Zero F]
    [IntCast F] [OfScientific F] [LT F] [DecidableRel (fun a b : F => a < b)] [DecidableEq F]
    (sqrt : F → F) {ps : List (Particle F)} {s : Spring F}
    {p1 p2 : Particle F} (h1 : getParticle ps s.a = some p1) (h2 : getParticle ps s.b = some p2)
    (hd : ¬ (0.0001 < sqrt ((p2.x - p1.x) * (p2.x - p1.x) + (p2.y - p1.y) * (p2.y - p1.y)))) :
    applySpring sqrt ps s = some ps := by
  simp [applySpring, h1, h2, hd]

theorem applySpring_frame {F : Type} [Add F] [Sub F] [Mul F] [Div F] [Neg F] [Zero F]
    [IntCast F] [OfScientific F] [LT F] [DecidableRel (fun a b : F => a < b)] [DecidableEq F]
    (sqrt : F → F) {ps : List (Particle F)} {s : Spring F}
    (hguard : ¬ ((0.0001 : F) < 0))
    (ha : InRange ps.length s.a) (hb : InRange ps.length s.b) :
    ∃ ps2, applySpring sqrt ps s = some ps2 ∧ Frame ps ps2 := by
  obtain ⟨p1, h1, h1n⟩ := getParticle_of_inRange ha
  obtain ⟨p2, h2, h2n⟩ := getParticle_of_inRange hb
  by_cases hd2 :
      0.0001 < sqrt ((p2.x - p1.x) * (p2.x - p1.x) + (p2.y - p1.y) * (p2.y - p1.y))
  swap
  · exact ⟨ps, applySpring_skip sqrt h1 h2 hd2, frame_refl ps⟩
  · have hne : sqrt ((p2.x - p1.x) * (p2.x - p1.x) + (p2.y - p1.y) * (p2.y - p1.y)) ≠ 0 := by
      intro h0
      rw [h0] at hd2
      exact hguard hd2
    unfold applySpring
    simp only [h1, h2, Option.bind_eq_bind, Option.some_bind, gt_iff_lt, hd2, if_true, checkedDiv,
      hne, if_false, Option.pure_def]
    cases hp1 : p1.pinned
    · simp only [Bool.not_false, if_true]
      have hf1 : ∀ (vx vy : F), Frame ps
          (ps.set s.a.toNat { x := p1.x, y := p1.y, vx := vx, vy := vy, pinned := false }) :=
        fun vx vy => frame_set_velocity h1n hp1 rfl rfl rfl
      have hb2 : ∀ (vx vy : F), ∃ q2,
          getParticle (ps.set s.a.toNat
            { x := p1.x, y := p1.y, vx := vx, vy := vy, pinned := false }) s.b = some q2 ∧
          (ps.set s.a.toNat
            { x := p1.x, y := p1.y, vx := vx, vy := vy, pinned := false })[s.b.toNat]? = some q2 :=
        fun vx vy => getParticle_of_inRange (by rw [List.length_set]; exact hb)
      obtain ⟨q2, hq2, hq2n⟩ := hb2 _ _
      rw [hq2]
      simp only [Option.some_bind]
      cases hpq : q2.pinned
      · simp only [Bool.not_false, if_true]
        exact ⟨_, rfl, frame_trans (hf1 _ _) (frame_set_velocity hq2n hpq rfl rfl rfl)⟩
      · simp only [Bool.not_true, Bool.false_eq_true, if_false]
        exact ⟨_, rfl, hf1 _ _⟩
    · simp only [Bool.not_true, Bool.false_eq_true, if_false, h2, Option.some_bind]
      cases hp2 : p2.pinned
      · simp only [Bool.not_false, if_true]
        exact ⟨_, rfl, frame_set_velocity h2n hp2 rfl rfl rfl⟩
      · simp only [Bool.not_true, Bool.false_eq_true, if_false]
        exact ⟨_, rfl, frame_refl ps⟩

theorem springPass_frame {F : Type} [Add F] [Sub F] [Mul F] [Div F] [Neg F] [Zero F]
    [IntCast F] [OfScientific F] [LT F] [DecidableRel (fun a b : F => a < b)] [DecidableEq F]
    (sqrt : F → F) (hguard : ¬ ((0.0001 : F) < 0)) (springs : List (Spring F)) :
    ∀ (ps : List (Particle F)),
      (∀ s ∈ springs, InRange ps.length s.a ∧ InRange ps.length s.b) →
      ∃ ps2, springPass sqrt springs ps = some ps2 ∧ Frame ps ps2 := by
  induction springs with
  | nil => intro ps _; exact ⟨ps, rfl, frame_refl ps⟩
  | cons s t ih =>
    intro ps h
    obtain ⟨hsa, hsb⟩ := h s (List.mem_cons_self s t)
    obtain ⟨ps1, h1, hf1⟩ := applySpring_frame sqrt hguard hsa hsb
    obtain ⟨ps2, h2, hf2⟩ := ih ps1 (fun s2 hs2 => by
      rw [hf1.1]; exact h s2 (List.mem_cons_of_mem s hs2))
    refine ⟨ps2, ?_, frame_trans hf1 hf2⟩
    unfold springPass at h2 ⊢
    rw [List.foldlM_cons, h1]
    exact h2

theorem integrate_pinned {F : Type} [Add F] [Sub F] [Mul F] [Div F] [Neg F] [Zero F]
    [IntCast F] [OfScientific F] [LT F] [DecidableRel (fun a b : F => a < b)] [DecidableEq F]
    {p : Particle F} (h : p.pinned = true) : integrate p = p := by
  simp [integrate, h]

theorem integrate_pinned_eq {F : Type} [Add F] [Sub F] [Mul F] [Div F] [Neg F] [Zero F]
    [IntCast F] [OfScientific F] [LT F] [DecidableRel (fun a b : F => a < b)] [DecidableEq F]
    (p : Particle F) : (integrate p).pinned = p.pinned := by
  unfold integrate
  dsimp only
  split_ifs <;> rfl

theorem integrate_not_below {F : Type} [Add F] [Sub F] [Mul F] [Div F] [Neg F] [Zero F]
    [IntCast F] [OfScientific F] [LT F] [DecidableRel (fun a b : F => a < b)] [DecidableEq F]
    (hfloor : ¬ ((-0.9 : F) < -0.9)) {p : Particle F} (h : p.pinned = false) :
    ¬ ((integrate p).y < -0.9) := by
  unfold integrate
  simp only [h, Bool.false_eq_true, if_false]
  split_ifs with hy
  · exact hfloor
  · exact hy

theorem floor_le_integrate_y {F : Type} [LinearOrderedField F]
    {p : Particle F} (h : p.pinned = false) :
    (-0.9 : F) ≤ (integrate p).y := by
  unfold integrate
  simp only [h, Bool.false_eq_true, if_false]
  split_ifs with hy
  · exact le_refl _
  · exact not_lt.mp hy

theorem springsInRange_iff {F : Type} (st : State F) :
    SpringsInRange st ↔
      ∀ s ∈ st.springs, InRange st.particles.length s.a ∧ InRange st.particles.length s.b := by
  unfold SpringsInRange InRange
  constructor
  · intro h s hs; obtain ⟨h1, h2, h3, h4⟩ := h s hs; exact ⟨⟨h1, h2⟩, ⟨h3, h4⟩⟩
  · intro h s hs; obtain ⟨⟨h1, h2⟩, ⟨h3, h4⟩⟩ := h s hs; exact ⟨h1, h2, h3, h4⟩

/-- One call of `updatePhysics` on a state with in-range springs: it returns a state with the
same springs whose particles keep the frame, the second pass being `integrate` on the
particles left by the first. -/
theorem updatePhysics_spec {F : Type} [Add F] [Sub F] [Mul F] [Div F] [Neg F] [Zero F]
    [IntCast F] [OfScientific F] [LT F] [DecidableRel (fun a b : F => a < b)] [DecidableEq F]
    (sqrt : F → F) (hguard : ¬ ((0.0001 : F) < 0)) {st : State F} (h : SpringsInRange st) :
    ∃ ps1, springPass sqrt st.springs st.particles = some ps1 ∧ Frame st.particles ps1 ∧
      updatePhysics sqrt st = some { particles := integratePass ps1, springs := st.springs } := by
  obtain ⟨ps1, h1, hf⟩ := springPass_frame sqrt hguard st.springs st.particles
    ((springsInRange_iff st).mp h)
  refine ⟨ps1, h1, hf, ?_⟩
  simp [updatePhysics, h1]

/-! One call and `n` calls of `updatePhysics`; the pinned invariant and the floor. -/

theorem timestep_pos {F : Type} [LinearOrderedField F]
    : (0 : F) < TIMESTEP := by unfold TIMESTEP; norm_num

theorem springsInRange_of_eq {F : Type} {st st2 : State F} (h : SpringsInRange st)
    (hs : st2.springs = st.springs) (hl : st2.particles.length = st.particles.length) :
    SpringsInRange st2 := by
  unfold SpringsInRange at h ⊢
  rw [hs, hl]; exact h

theorem updatePhysics_step {F : Type} [Add F] [Sub F] [Mul F] [Div F] [Neg F] [Zero F]
    [IntCast F] [OfScientific F] [LT F] [DecidableRel (fun a b : F => a < b)] [DecidableEq F]
    (sqrt : F → F) (hguard : ¬ ((0.0001 : F) < 0)) (hfloor : ¬ ((-0.9 : F) < -0.9))
    {st : State F} (h : SpringsInRange st) :
    ∃ st2, updatePhysics sqrt st = some st2 ∧ st2.springs = st.springs ∧
      st2.particles.length = st.particles.length ∧
      ∀ (i : Nat) (p : Particle F), st.particles[i]? = some p →
        ∃ q, st2.particles[i]? = some q ∧ q.pinned = p.pinned ∧ (p.pinned = true → q = p) ∧
          (p.pinned = false → ¬ (q.y < -0.9)) := by
  obtain ⟨ps1, _, hf, hu⟩ := updatePhysics_spec sqrt hguard h
  refine ⟨_, hu, rfl, by simp [integratePass, hf.1], fun i p hp => ?_⟩
  obtain ⟨q, hq, _, _, hpin, hsame⟩ := hf.2 i p hp
  refine ⟨integrate q, by simp [integratePass, hq], (integrate_pinned_eq q).trans hpin, ?_, ?_⟩
  · intro hp1
    rw [integrate_pinned (hpin.trans hp1), hsame hp1]
  · intro hp0
    exact integrate_not_below hfloor (hpin.trans hp0)

theorem updatePhysicsN_spec {F : Type} [Add F] [Sub F] [Mul F] [Div F] [Neg F] [Zero F]
    [IntCast F] [OfScientific F] [LT F] [DecidableRel (fun a b : F => a < b)] [DecidableEq F]
    (sqrt : F → F) (hguard : ¬ ((0.0001 : F) < 0)) (hfloor : ¬ ((-0.9 : F) < -0.9))
    (n : Nat) :
    ∀ (st : State F), SpringsInRange st →
    ∃ st2, updatePhysicsN sqrt n st = some st2 ∧ st2.springs = st.springs ∧
      st2.particles.length = st.particles.length ∧
      ∀ (i : Nat) (p : Particle F), st.particles[i]? = some p →
        ∃ q, st2.particles[i]? = some q ∧ q.pinned = p.pinned ∧ (p.pinned = true → q = p) ∧
          (0 < n → p.pinned = false → ¬ (q.y < -0.9)) := by
  induction n with
  | zero =>
    intro st _
    exact ⟨st, rfl, rfl, rfl,
      fun i p hp => ⟨p, hp, rfl, fun _ => rfl, fun h => absurd h (by decide)⟩⟩
  | succ n ih =>
    intro st h
    obtain ⟨st1, h1, hs1, hl1, hp1⟩ := updatePhysics_step sqrt hguard hfloor h
    obtain ⟨st2, h2, hs2, hl2, hp2⟩ := ih st1 (springsInRange_of_eq h hs1 hl1)
    refine ⟨st2, ?_, hs2.trans hs1, hl2.trans hl1, fun i p hp => ?_⟩
    · simp [updatePhysicsN, h1, h2]
    · obtain ⟨q, hq, hqpin, hqsame, hqfloor⟩ := hp1 i p hp
      obtain ⟨r, hr, hrpin, hrsame, hrfloor⟩ := hp2 i q hq
      refine ⟨r, hr, hrpin.trans hqpin, ?_, ?_⟩
      · intro hpin
        rw [hrsame (hqpin.trans hpin), hqsame hpin]
      · intro _ hp0
        rcases Nat.eq_zero_or_pos n with hn | hn
        · subst hn
          simp only [updatePhysicsN, Option.some.injEq] at h2
          subst h2
          rw [hq] at hr
          cases hr
          exact hqfloor hp0
        · exact hrfloor hn (hqpin.trans hp0)

/-- C1 (pinned invariant): on every state whose spring indices are in range, any number `n` of
`updatePhysics` calls returns a state, and every particle that was pinned at the start is found
at the same index wholly unchanged: same `x`, `y`, `vx`, `vy`, still pinned. -/
theorem pinned_invariant {F : Type} [LinearOrderedField F]
    (sqrt : F → F) (n : Nat) (st : State F) (h : SpringsInRange st) :
    ∃ st2, updatePhysicsN sqrt n st = some st2 ∧
      ∀ (i : Nat) (p : Particle F), st.particles[i]? = some p → p.pinned = true →
        ∃ q, st2.particles[i]? = some q ∧ q.x = p.x ∧ q.y = p.y ∧ q.vx = p.vx ∧ q.vy = p.vy ∧
          q.pinned = true := by
  obtain ⟨st2, h2, _, _, hp2⟩ := updatePhysicsN_spec sqrt guard_exact floor_exact n st h
  refine ⟨st2, h2, fun i p hp hpin => ?_⟩
  obtain ⟨q, hq, _, hsame, _⟩ := hp2 i p hp
  have hqp := hsame hpin
  subst hqp
  exact ⟨q, hq, rfl, rfl, rfl, rfl, hpin⟩

/-- The floor in exact arithmetic: on a state over an ordered field whose spring indices are
in range, one `updatePhysics` call returns a state in which every unpinned particle has
`y ≥ -0.9`; on a step whose integrated `y` is below `-0.9` the returned `y` is `-0.9` and the
returned `vy` is `-0.3 * vy2`, and if the step started at `y ≥ -0.9` then `vy2 < 0`, the returned
`vy` is positive and `|vy| = 0.3 * |vy2|`; the bound also holds after `n + 1` calls. -/
theorem floor_collision_exact {F : Type} [LinearOrderedField F]
    (sqrt : F → F) (st : State F) (h : SpringsInRange st) :
    (∃ ps1 st2, springPass sqrt st.springs st.particles = some ps1 ∧
      updatePhysics sqrt st = some st2 ∧
      ∀ (i : Nat) (p : Particle F), st.particles[i]? = some p → p.pinned = false →
        ∃ q r, ps1[i]? = some q ∧ st2.particles[i]? = some r ∧ q.y = p.y ∧
          (-0.9 : F) ≤ r.y ∧
          (p.y + (q.vy + GRAVITY * TIMESTEP) * TIMESTEP < -0.9 →
            r.y = -0.9 ∧ r.vy = -0.3 * (q.vy + GRAVITY * TIMESTEP) ∧
            (-0.9 ≤ p.y →
              q.vy + GRAVITY * TIMESTEP < 0 ∧ 0 < r.vy ∧
              |r.vy| = 0.3 * |q.vy + GRAVITY * TIMESTEP|))) ∧
    ∀ n : Nat, ∃ st3, updatePhysicsN sqrt (n + 1) st = some st3 ∧
      ∀ (i : Nat) (p : Particle F), st.particles[i]? = some p → p.pinned = false →
        ∃ r, st3.particles[i]? = some r ∧ (-0.9 : F) ≤ r.y := by
  constructor
  · obtain ⟨ps1, hs, hf, hu⟩ := updatePhysics_spec sqrt guard_exact h
    refine ⟨ps1, _, hs, hu, fun i p hp hpin => ?_⟩
    obtain ⟨q, hq, _, hqy, hqpin, _⟩ := hf.2 i p hp
    have hq0 : q.pinned = false := hqpin.trans hpin
    refine ⟨q, integrate q, hq, by simp [integratePass, hq], hqy, floor_le_integrate_y hq0, ?_⟩
    intro hlt
    rw [← hqy] at hlt
    have hint : integrate q =
        { q with
          x := q.x + q.vx * TIMESTEP
          y := -0.9
          vy := (q.vy + GRAVITY * TIMESTEP) * -0.3 } := by
      simp only [integrate, hq0, Bool.false_eq_true, if_false, hlt, if_true]
    rw [hint]
    refine ⟨rfl, by ring, fun hfloor => ?_⟩
    rw [← hqy] at hfloor
    have hneg : q.vy + GRAVITY * TIMESTEP < 0 := by
      by_contra hge
      have h0 : 0 ≤ (q.vy + GRAVITY * TIMESTEP) * TIMESTEP :=
        mul_nonneg (not_lt.mp hge) (le_of_lt timestep_pos)
      linarith
    refine ⟨hneg, ?_, ?_⟩
    · show 0 < (q.vy + GRAVITY * TIMESTEP) * -0.3
      have : (0 : F) < 0.3 := by norm_num
      nlinarith
    · show |(q.vy + GRAVITY * TIMESTEP) * -0.3| = 0.3 * |q.vy + GRAVITY * TIMESTEP|
      rw [abs_mul, abs_neg, abs_of_pos (by norm_num : (0 : F) < 0.3), mul_comm]
  · intro n
    obtain ⟨st3, h3, _, _, hp3⟩ :=
      updatePhysicsN_spec sqrt guard_exact floor_exact (n + 1) st h
    refine ⟨st3, h3, fun i p hp hpin => ?_⟩
    obtain ⟨r, hr, _, _, hfloor⟩ := hp3 i p hp
    exact ⟨r, hr, not_lt.mp (hfloor (Nat.succ_pos n) hpin)⟩

/-- The floor in the arithmetic of the program, whatever it is: on a state whose spring indices
are in range, one `updatePhysics` call returns a state in which no unpinned particle has
`y < -0.9`; the returned particle is the clamped one when the integrated `y` the code computes
is below `-0.9`, and the integrated one otherwise; no unpinned particle has `y < -0.9` after
`n + 1` calls either. -/
theorem floor_collision_run {F : Type} [Add F] [Sub F] [Mul F] [Div F] [Neg F] [Zero F]
    [IntCast F] [OfScientific F] [LT F] [DecidableRel (fun a b : F => a < b)] [DecidableEq F]
    (sqrt : F → F) (hguard : ¬ ((0.0001 : F) < 0)) (hfloor : ¬ ((-0.9 : F) < -0.9))
    (st : State F) (h : SpringsInRange st) :
    (∃ ps1 st2, springPass sqrt st.springs st.particles = some ps1 ∧
      updatePhysics sqrt st = some st2 ∧
      ∀ (i : Nat) (p : Particle F), st.particles[i]? = some p → p.pinned = false →
        ∃ q r, ps1[i]? = some q ∧ st2.particles[i]? = some r ∧ q.y = p.y ∧
          ¬ (r.y < -0.9) ∧
          (p.y + (q.vy + GRAVITY * TIMESTEP) * TIMESTEP < -0.9 →
            r.y = -0.9 ∧ r.vy = (q.vy + GRAVITY * TIMESTEP) * -0.3) ∧
          (¬ (p.y + (q.vy + GRAVITY * TIMESTEP) * TIMESTEP < -0.9) →
            r.y = p.y + (q.vy + GRAVITY * TIMESTEP) * TIMESTEP ∧
            r.vy = q.vy + GRAVITY * TIMESTEP)) ∧
    ∀ n : Nat, ∃ st3, updatePhysicsN sqrt (n + 1) st = some st3 ∧
      ∀ (i : Nat) (p : Particle F), st.particles[i]? = some p → p.pinned = false →
        ∃ r, st3.particles[i]? = some r ∧ ¬ (r.y < -0.9) := by
  constructor
  · obtain ⟨ps1, hs, hf, hu⟩ := updatePhysics_spec sqrt hguard h
    refine ⟨ps1, _, hs, hu, fun i p hp hpin => ?_⟩
    obtain ⟨q, hq, _, hqy, hqpin, _⟩ := hf.2 i p hp
    have hq0 : q.pinned = false := hqpin.trans hpin
    refine ⟨q, integrate q, hq, by simp [integratePass, hq], hqy,
      integrate_not_below hfloor hq0, fun hlt => ?_, fun hge => ?_⟩
    · rw [← hqy] at hlt
      simp only [integrate, hq0, Bool.false_eq_true, if_false, hlt, if_true, and_self]
    · rw [← hqy] at hge ⊢
      simp only [integrate, hq0, Bool.false_eq_true, if_false, hge, and_self]
  · intro n
    obtain ⟨st3, h3, _, _, hp3⟩ := updatePhysicsN_spec sqrt hguard hfloor (n + 1) st h
    refine ⟨st3, h3, fun i p hp hpin => ?_⟩
    obtain ⟨r, hr, _, _, hfl⟩ := hp3 i p hp
    exact ⟨r, hr, hfl (Nat.succ_pos n) hpin⟩

/-- C2 (floor collision, amended), for every state whose spring indices are in range.
In the arithmetic the program runs (any `F`, in particular binary32, with the two facts
`¬ 0.0001 < 0` and `¬ -0.9 < -0.9` that binary32 satisfies): one `updatePhysics` call returns
a state in which no unpinned particle has `y < -0.9` (a NaN `y` is possible and is not `< -0.9`);
on a step where the integrated `y` as the code computes it, `y + vy2 * TIMESTEP` with
`vy2 = vy + GRAVITY * TIMESTEP` after the spring pass, is `< -0.9`, the returned `y` is the
constant `-0.9` and the returned `vy` is `vy2 * -0.3`, and otherwise the returned `y` and `vy`
are the integrated ones; after any number `n + 1` of calls no unpinned particle has `y < -0.9`.
Reading the arithmetic as exact real arithmetic (any ordered field `K`): moreover `y ≥ -0.9`
after one call and after `n + 1` calls, and on a crossing step that started at `y ≥ -0.9` the
velocity `vy2` is negative and the returned `vy` is positive with `|vy| = 0.3 * |vy2|`. -/
theorem floor_collision {F : Type} [Add F] [Sub F] [Mul F] [Div F] [Neg F] [Zero F]
    [IntCast F] [OfScientific F] [LT F] [DecidableRel (fun a b : F => a < b)] [DecidableEq F]
    {K : Type} [LinearOrderedField K]
    (sqrt : F → F) (hguard : ¬ ((0.0001 : F) < 0)) (hfloor : ¬ ((-0.9 : F) < -0.9))
    (sqrtK : K → K) :
    (∀ st : State F, SpringsInRange st →
      (∃ ps1 st2, springPass sqrt st.springs st.particles = some ps1 ∧
        updatePhysics sqrt st = some st2 ∧
        ∀ (i : Nat) (p : Particle F), st.particles[i]? = some p → p.pinned = false →
          ∃ q r, ps1[i]? = some q ∧ st2.particles[i]? = some r ∧ q.y = p.y ∧
            ¬ (r.y < -0.9) ∧
            (p.y + (q.vy + GRAVITY * TIMESTEP) * TIMESTEP < -0.9 →
              r.y = -0.9 ∧ r.vy = (q.vy + GRAVITY * TIMESTEP) * -0.3) ∧
            (¬ (p.y + (q.vy + GRAVITY * TIMESTEP) * TIMESTEP < -0.9) →
              r.y = p.y + (q.vy + GRAVITY * TIMESTEP) * TIMESTEP ∧
              r.vy = q.vy + GRAVITY * TIMESTEP)) ∧
      ∀ n : Nat, ∃ st3, updatePhysicsN sqrt (n + 1) st = some st3 ∧
        ∀ (i : Nat) (p : Particle F), st.particles[i]? = some p → p.pinned = false →
          ∃ r, st3.particles[i]? = some r ∧ ¬ (r.y < -0.9)) ∧
    (∀ st : State K, SpringsInRange st →
      (∃ ps1 st2, springPass sqrtK st.springs st.particles = some ps1 ∧
        updatePhysics sqrtK st = some st2 ∧
        ∀ (i : Nat) (p : Particle K), st.particles[i]? = some p → p.pinned = false →
          ∃ q r, ps1[i]? = some q ∧ st2.particles[i]? = some r ∧ q.y = p.y ∧
            (-0.9 : K) ≤ r.y ∧
            (p.y + (q.vy + GRAVITY * TIMESTEP) * TIMESTEP < -0.9 →
              r.y = -0.9 ∧ r.vy = -0.3 * (q.vy + GRAVITY * TIMESTEP) ∧
              (-0.9 ≤ p.y →
                q.vy + GRAVITY * TIMESTEP < 0 ∧ 0 < r.vy ∧
                |r.vy| = 0.3 * |q.vy + GRAVITY * TIMESTEP|))) ∧
      ∀ n : Nat, ∃ st3, updatePhysicsN sqrtK (n + 1) st = some st3 ∧
        ∀ (i : Nat) (p : Particle K), st.particles[i]? = some p → p.pinned = false →
          ∃ r, st3.particles[i]? = some r ∧ (-0.9 : K) ≤ r.y) :=
  ⟨fun st h => floor_collision_run sqrt hguard hfloor st h,
    fun st h => floor_collision_exact sqrtK st h⟩

/-! The spring force rule and its symmetry. -/

theorem getParticle_set_ne {F : Type} {ps : List (Particle F)} {a i : Int} (q : Particle F)
    (ha : 0 ≤ a) (hia : i ≠ a) :
    getParticle (ps.set a.toNat q) i = getParticle ps i := by
  unfold getParticle
  split_ifs with hi
  · exact List.getElem?_set_ne (by omega)
  · rfl

theorem getParticle_set_self {F : Type} {ps : List (Particle F)} {a : Int} (q : Particle F)
    (ha : InRange ps.length a) : getParticle (ps.set a.toNat q) a = some q := by
  obtain ⟨h0, h1⟩ := ha
  unfold getParticle
  rw [if_pos h0]
  exact List.getElem?_set_self (by omega)

theorem set_eq_self {F : Type}
    {ps : List (Particle F)} {n : Nat} {p : Particle F} (h : ps[n]? = some p) :
    ps.set n p = ps := by
  apply List.ext_getElem? 
  intro i
  by_cases hin : n = i
  · subst hin
    have hlt : n < ps.length := by
      rcases Nat.lt_or_ge n ps.length with h1 | h1
      · exact h1
      · rw [List.getElem?_eq_none h1] at h; cases h
    rw [List.getElem?_set_self hlt, h]
  · rw [List.getElem?_set_ne hin]

/-- The active branch of `applySpring` for a spring with two distinct endpoints: the vector
after both updates, written with the spec's force. -/
theorem applySpring_active {F : Type} [Add F] [Sub F] [Mul F] [Div F] [Neg F] [Zero F]
    [IntCast F] [OfScientific F] [LT F] [DecidableRel (fun a b : F => a < b)] [DecidableEq F]
    (sqrt : F → F) {ps : List (Particle F)} {s : Spring F}
    {p1 p2 : Particle F} (hguard : ¬ ((0.0001 : F) < 0))
    (h1 : getParticle ps s.a = some p1) (h2 : getParticle ps s.b = some p2)
    (hab : s.a ≠ s.b) (hd : 0.0001 < specDist sqrt p1 p2) :
    applySpring sqrt ps s
      = some (((ps.set s.a.toNat (specKickA sqrt s p1 p2)).set s.b.toNat
          (specKickB sqrt s p1 p2))) := by
  obtain ⟨hra, h1n⟩ := getParticle_some h1
  obtain ⟨hrb, h2n⟩ := getParticle_some h2
  have hd2 : (0.0001 : F)
      < sqrt ((p2.x - p1.x) * (p2.x - p1.x) + (p2.y - p1.y) * (p2.y - p1.y)) := hd
  have hne : sqrt ((p2.x - p1.x) * (p2.x - p1.x) + (p2.y - p1.y) * (p2.y - p1.y)) ≠ 0 := by
    intro h0
    rw [h0] at hd2
    exact hguard hd2
  have hfx : (p2.x - p1.x) / sqrt ((p2.x - p1.x) * (p2.x - p1.x) + (p2.y - p1.y) * (p2.y - p1.y))
        * (s.k * (sqrt ((p2.x - p1.x) * (p2.x - p1.x) + (p2.y - p1.y) * (p2.y - p1.y))
          - s.restLength))
      = specForceX sqrt s p1 p2 := rfl
  have hfy : (p2.y - p1.y) / sqrt ((p2.x - p1.x) * (p2.x - p1.x) + (p2.y - p1.y) * (p2.y - p1.y))
        * (s.k * (sqrt ((p2.x - p1.x) * (p2.x - p1.x) + (p2.y - p1.y) * (p2.y - p1.y))
          - s.restLength))
      = specForceY sqrt s p1 p2 := rfl
  have hq : ∀ q, getParticle (ps.set s.a.toNat q) s.b = some p2 := fun q => by
    rw [getParticle_set_ne q hra.1 (Ne.symm hab)]; exact h2
  unfold applySpring
  simp only [h1, h2, Option.bind_eq_bind, Option.some_bind, gt_iff_lt, hd2, if_true, checkedDiv,
    hne, if_false, Option.pure_def, hfx, hfy]
  unfold specKickA specKickB
  cases hp1 : p1.pinned <;> cases hp2 : p2.pinned <;>
    simp only [Bool.not_false, Bool.not_true, if_true, if_false, Bool.false_eq_true, hq, h2,
      Option.some_bind, hp2]
  · rw [set_eq_self (show (ps.set s.a.toNat _)[s.b.toNat]? = some p2 by
      rw [List.getElem?_set_ne (by have := hra.1; have := hrb.1; omega)]; exact h2n)]
  · rw [set_eq_self h1n]
  · rw [set_eq_self h1n, set_eq_self h2n]

/-- The spring force rule in the arithmetic of the program, whatever it is: the spring leaves
the particle vector unchanged unless the test `dist > 0.0001` succeeds; when it succeeds `dist`
is not zero, both quotients have a value, and for `a ≠ b` the call returns the vector in which
`a` and `b` hold the kicked endpoints and every other index is unchanged. -/
theorem spring_force_rule_run {F : Type} [Add F] [Sub F] [Mul F] [Div F] [Neg F] [Zero F]
    [IntCast F] [OfScientific F] [LT F] [DecidableRel (fun a b : F => a < b)] [DecidableEq F]
    (sqrt : F → F) (hguard : ¬ ((0.0001 : F) < 0)) (ps : List (Particle F))
    (s : Spring F) (p1 p2 : Particle F)
    (h1 : getParticle ps s.a = some p1) (h2 : getParticle ps s.b = some p2) :
    (¬ (0.0001 < specDist sqrt p1 p2) → applySpring sqrt ps s = some ps) ∧
    (0.0001 < specDist sqrt p1 p2 →
      specDist sqrt p1 p2 ≠ 0 ∧
      (checkedDiv (p2.x - p1.x) (specDist sqrt p1 p2)).isSome = true ∧
      (checkedDiv (p2.y - p1.y) (specDist sqrt p1 p2)).isSome = true ∧
      (s.a ≠ s.b →
        ∃ ps2, applySpring sqrt ps s = some ps2 ∧ ps2.length = ps.length ∧
          getParticle ps2 s.a = some (specKickA sqrt s p1 p2) ∧
          getParticle ps2 s.b = some (specKickB sqrt s p1 p2) ∧
          ∀ i : Int, i ≠ s.a → i ≠ s.b → getParticle ps2 i = getParticle ps i)) := by
  obtain ⟨hra, h1n⟩ := getParticle_some h1
  obtain ⟨hrb, h2n⟩ := getParticle_some h2
  refine ⟨fun hd => applySpring_skip sqrt h1 h2 hd, fun hd => ?_⟩
  have hne : specDist sqrt p1 p2 ≠ 0 := by
    intro h0
    rw [h0] at hd
    exact hguard hd
  refine ⟨hne, by simp [checkedDiv, hne], by simp [checkedDiv, hne], fun hab => ?_⟩
  refine ⟨_, applySpring_active sqrt hguard h1 h2 hab hd, by simp, ?_, ?_, fun i hia hib => ?_⟩
  · rw [getParticle_set_ne _ hrb.1 hab]
    exact getParticle_set_self _ hra
  · exact getParticle_set_self _ (by rw [List.length_set]; exact hrb)
  · rw [getParticle_set_ne _ hrb.1 hib, getParticle_set_ne _ hra.1 hia]

/-- The spring force rule in exact arithmetic, for a square root with `sqrt 0 = 0`: if
`dist ≤ 0.0001` the spring leaves the particle vector unchanged, and so it does when the two
particles are at the same position (there `dist = 0`, and the call still returns).  Otherwise
`dist ≠ 0`, both quotients by `dist` have a value, and the call returns the vector in which `a`
holds `p1` with `+f*dt` added to its velocity iff `p1` is not pinned, `b` holds `p2` with `f*dt`
subtracted iff `p2` is not pinned, and every other index is unchanged, where
`f = (d / dist) * k * (dist - restLength)` and `dt = 0.016`. -/
theorem spring_force_rule_exact {F : Type} [LinearOrderedField F]
    (sqrt : F → F) (hsqrt : sqrt 0 = 0) (ps : List (Particle F))
    (s : Spring F) (p1 p2 : Particle F)
    (h1 : getParticle ps s.a = some p1) (h2 : getParticle ps s.b = some p2) :
    (specDist sqrt p1 p2 ≤ 0.0001 → applySpring sqrt ps s = some ps) ∧
    (p1.x = p2.x → p1.y = p2.y → specDist sqrt p1 p2 = 0 ∧ applySpring sqrt ps s = some ps) ∧
    (0.0001 < specDist sqrt p1 p2 →
      specDist sqrt p1 p2 ≠ 0 ∧
      (checkedDiv (p2.x - p1.x) (specDist sqrt p1 p2)).isSome = true ∧
      (checkedDiv (p2.y - p1.y) (specDist sqrt p1 p2)).isSome = true ∧
      ∃ ps2, applySpring sqrt ps s = some ps2 ∧ ps2.length = ps.length ∧
        getParticle ps2 s.a = some (specKickA sqrt s p1 p2) ∧
        getParticle ps2 s.b = some (specKickB sqrt s p1 p2) ∧
        ∀ i : Int, i ≠ s.a → i ≠ s.b → getParticle ps2 i = getParticle ps i) ∧
    specForceX sqrt s p1 p2
      = (p2.x - p1.x) / specDist sqrt p1 p2 * s.k * (specDist sqrt p1 p2 - s.restLength) ∧
    specForceY sqrt s p1 p2
      = (p2.y - p1.y) / specDist sqrt p1 p2 * s.k * (specDist sqrt p1 p2 - s.restLength) ∧
    (TIMESTEP : F) = 0.016 := by
  have hcoin : p1.x = p2.x → p1.y = p2.y → specDist sqrt p1 p2 = 0 := by
    intro hx hy
    unfold specDist
    rw [hx, hy]
    simpa using hsqrt
  have hrun := spring_force_rule_run sqrt guard_exact ps s p1 p2 h1 h2
  refine ⟨fun hd => hrun.1 (not_lt.mpr hd), fun hx hy => ⟨hcoin hx hy, ?_⟩, fun hd => ?_,
    by unfold specForceX; ring, by unfold specForceY; ring, rfl⟩
  · refine hrun.1 ?_
    rw [hcoin hx hy]
    exact guard_exact
  · have hab : s.a ≠ s.b := by
      intro hab
      rw [hab, h2] at h1
      cases h1
      rw [hcoin rfl rfl] at hd
      exact guard_exact hd
    obtain ⟨hne, hx, hy, hkick⟩ := hrun.2 hd
    exact ⟨hne, hx, hy, hkick hab⟩

/-- C4 (spring force rule, amended), for a spring whose endpoints `p1 = particles[a]`,
`p2 = particles[b]` exist, `dist` being the computed distance.
In the arithmetic the program runs (any `F`, in particular binary32, with the fact
`¬ 0.0001 < 0` that binary32 satisfies): whenever the test `dist > 0.0001` of the code fails,
which includes a NaN `dist`, the spring leaves the whole particle vector unchanged and nothing
is divided by `dist`.  When the test succeeds, `dist ≠ 0`, both
quotients by `dist` have a value, and for `a ≠ b` the call returns the vector in which `a` holds
`p1` with `f * dt` added to its velocity iff `p1` is not pinned, `b` holds `p2` with `f * dt`
subtracted iff `p2` is not pinned, and every other index is unchanged, where
`f = (d / dist) * (k * (dist - restLength))`, every operation being the program's, and
`dt = TIMESTEP` is the literal `0.016` of that arithmetic (`0.016f` in binary32).
Reading the arithmetic as exact real arithmetic (any ordered field `K`, with `sqrt 0 = 0`): the
spring is skipped iff `dist ≤ 0.0001`, in particular for two particles at the same position,
`a ≠ b` need not be assumed, `f = (d / dist) * k * (dist - restLength)` and `dt = 0.016`. -/
theorem spring_force_rule {F : Type} [Add F] [Sub F] [Mul F] [Div F] [Neg F] [Zero F]
    [IntCast F] [OfScientific F] [LT F] [DecidableRel (fun a b : F => a < b)] [DecidableEq F]
    {K : Type} [LinearOrderedField K]
    (sqrt : F → F) (hguard : ¬ ((0.0001 : F) < 0)) (sqrtK : K → K) (hsqrt : sqrtK 0 = 0) :
    (∀ (ps : List (Particle F)) (s : Spring F) (p1 p2 : Particle F),
      getParticle ps s.a = some p1 → getParticle ps s.b = some p2 →
      (¬ (0.0001 < specDist sqrt p1 p2) → applySpring sqrt ps s = some ps) ∧
      (0.0001 < specDist sqrt p1 p2 →
        specDist sqrt p1 p2 ≠ 0 ∧
        (checkedDiv (p2.x - p1.x) (specDist sqrt p1 p2)).isSome = true ∧
        (checkedDiv (p2.y - p1.y) (specDist sqrt p1 p2)).isSome = true ∧
        (s.a ≠ s.b →
          ∃ ps2, applySpring sqrt ps s = some ps2 ∧ ps2.length = ps.length ∧
            getParticle ps2 s.a = some (specKickA sqrt s p1 p2) ∧
            getParticle ps2 s.b = some (specKickB sqrt s p1 p2) ∧
            ∀ i : Int, i ≠ s.a → i ≠ s.b → getParticle ps2 i = getParticle ps i))) ∧
    (∀ (ps : List (Particle K)) (s : Spring K) (p1 p2 : Particle K),
      getParticle ps s.a = some p1 → getParticle ps s.b = some p2 →
      (specDist sqrtK p1 p2 ≤ 0.0001 → applySpring sqrtK ps s = some ps) ∧
      (p1.x = p2.x → p1.y = p2.y →
        specDist sqrtK p1 p2 = 0 ∧ applySpring sqrtK ps s = some ps) ∧
      (0.0001 < specDist sqrtK p1 p2 →
        specDist sqrtK p1 p2 ≠ 0 ∧
        (checkedDiv (p2.x - p1.x) (specDist sqrtK p1 p2)).isSome = true ∧
        (checkedDiv (p2.y - p1.y) (specDist sqrtK p1 p2)).isSome = true ∧
        ∃ ps2, applySpring sqrtK ps s = some ps2 ∧ ps2.length = ps.length ∧
          getParticle ps2 s.a = some (specKickA sqrtK s p1 p2) ∧
          getParticle ps2 s.b = some (specKickB sqrtK s p1 p2) ∧
          ∀ i : Int, i ≠ s.a → i ≠ s.b → getParticle ps2 i = getParticle ps i) ∧
      specForceX sqrtK s p1 p2
        = (p2.x - p1.x) / specDist sqrtK p1 p2 * s.k * (specDist sqrtK p1 p2 - s.restLength) ∧
      specForceY sqrtK s p1 p2
        = (p2.y - p1.y) / specDist sqrtK p1 p2 * s.k * (specDist sqrtK p1 p2 - s.restLength) ∧
      (TIMESTEP : K) = 0.016) :=
  ⟨fun ps s p1 p2 h1 h2 => spring_force_rule_run sqrt hguard ps s p1 p2 h1 h2,
    fun ps s p1 p2 h1 h2 => spring_force_rule_exact sqrtK hsqrt ps s p1 p2 h1 h2⟩

/-- C3 (symmetry): in a state of two unpinned particles joined by one spring (`a ≠ b`), pass 1
returns, and the velocity change it makes to one particle is the negation of the change it
makes to the other, so the sum of the two velocities is the same before and after. -/
theorem spring_pass_symmetry {F : Type} [LinearOrderedField F]
    (sqrt : F → F) (p0 p1 : Particle F) (s : Spring F)
    (h0 : p0.pinned = false) (h1 : p1.pinned = false)
    (hs : (s.a = 0 ∧ s.b = 1) ∨ (s.a = 1 ∧ s.b = 0)) :
    ∃ q0 q1, springPass sqrt [s] [p0, p1] = some [q0, q1] ∧
      q0.vx - p0.vx = -(q1.vx - p1.vx) ∧ q0.vy - p0.vy = -(q1.vy - p1.vy) ∧
      q0.vx + q1.vx = p0.vx + p1.vx ∧ q0.vy + q1.vy = p0.vy + p1.vy := by
  have hpass : springPass sqrt [s] [p0, p1] = applySpring sqrt [p0, p1] s := by
    simp [springPass, List.foldlM]
  rw [hpass]
  rcases hs with ⟨ha, hb⟩ | ⟨ha, hb⟩
  · have g1 : getParticle [p0, p1] s.a = some p0 := by simp [getParticle, ha]
    have g2 : getParticle [p0, p1] s.b = some p1 := by simp [getParticle, hb]
    by_cases hd : specDist sqrt p0 p1 ≤ 0.0001
    · exact ⟨p0, p1, applySpring_skip sqrt g1 g2 (not_lt.mpr hd), by simp, by simp, rfl, rfl⟩
    · refine ⟨specKickA sqrt s p0 p1, specKickB sqrt s p0 p1, ?_, ?_⟩
      · rw [applySpring_active sqrt guard_exact g1 g2 (by rw [ha, hb]; decide)
          (not_le.mp hd), ha, hb]
        rfl
      · simp only [specKickA, specKickB, h0, h1, Bool.false_eq_true, if_false]
        refine ⟨by ring, by ring, by ring, by ring⟩
  · have g1 : getParticle [p0, p1] s.a = some p1 := by simp [getParticle, ha]
    have g2 : getParticle [p0, p1] s.b = some p0 := by simp [getParticle, hb]
    by_cases hd : specDist sqrt p1 p0 ≤ 0.0001
    · exact ⟨p0, p1, applySpring_skip sqrt g1 g2 (not_lt.mpr hd), by simp, by simp, rfl, rfl⟩
    · refine ⟨specKickB sqrt s p1 p0, specKickA sqrt s p1 p0, ?_, ?_⟩
      · rw [applySpring_active sqrt guard_exact g1 g2 (by rw [ha, hb]; decide)
          (not_le.mp hd), ha, hb]
        rfl
      · simp only [specKickA, specKickB, h0, h1, Bool.false_eq_true, if_false]
        refine ⟨by ring, by ring, by ring, by ring⟩

/-! The vectors built by `createSoftBody`, in closed form. -/

theorem foldl_append_eq {α β : Type} (g : α → List β) (l : List α) (init : List β) :
    l.foldl (fun acc i => acc ++ g i) init = init ++ l.flatMap g := by
  induction l generalizing init with
  | nil => simp
  | cons h t ih => simp [ih]

theorem forLoop_append_eq {β : Type} (n : Int) (g : Int → List β) (init : List β) :
    forLoop n (fun i acc => acc ++ g i) init
      = init ++ (List.range n.toNat).flatMap (fun (i : Nat) => g (i : Int)) := by
  unfold forLoop
  exact foldl_append_eq (fun i : Nat => g (i : Int)) _ init

theorem pushSprings_eq {F : Type} (rows cols : Int) (spacing stiffness : F) (i j : Int)
    (sp : List (Spring F)) :
    pushSprings rows cols spacing stiffness i j sp
      = sp ++ springsAt rows cols spacing stiffness i j := by
  unfold pushSprings springsAt
  split_ifs <;> simp

theorem createSoftBody_particles {F : Type} [Add F] [Sub F] [Mul F] [Div F] [Neg F] [Zero F]
    [IntCast F] [OfScientific F] [LT F] [DecidableRel (fun a b : F => a < b)] [DecidableEq F]
    (rows cols : Int) (spacing stiffness : F) (st : State F) :
    (createSoftBody rows cols spacing stiffness st).particles
      = st.particles ++ (List.range rows.toNat).flatMap (fun (i : Nat) =>
          (List.range cols.toNat).map (fun (j : Nat) =>
            mkParticle rows cols spacing (i : Int) (j : Int))) := by
  have inner : ∀ (i : Int) (ps : List (Particle F)),
      forLoop cols (fun j ps => ps ++ [mkParticle rows cols spacing i j]) ps
        = ps ++ (List.range cols.toNat).map (fun (j : Nat) =>
            mkParticle rows cols spacing i (j : Int)) := by
    intro i ps
    rw [forLoop_append_eq cols (fun j => [mkParticle rows cols spacing i j]) ps]
    congr 1
    induction (List.range cols.toNat) with
    | nil => rfl
    | cons h t ih => simp [ih]
  simp only [createSoftBody, inner]
  exact forLoop_append_eq rows _ _

theorem createSoftBody_springs {F : Type} [Add F] [Sub F] [Mul F] [Div F] [Neg F] [Zero F]
    [IntCast F] [OfScientific F] [LT F] [DecidableRel (fun a b : F => a < b)] [DecidableEq F]
    (rows cols : Int) (spacing stiffness : F) (st : State F) :
    (createSoftBody rows cols spacing stiffness st).springs
      = st.springs ++ (List.range rows.toNat).flatMap (fun (i : Nat) =>
          (List.range cols.toNat).flatMap (fun (j : Nat) =>
            springsAt rows cols spacing stiffness (i : Int) (j : Int))) := by
  simp only [createSoftBody, pushSprings_eq]
  have inner : ∀ (i : Int) (sp : List (Spring F)),
      forLoop cols (fun j sp => sp ++ springsAt rows cols spacing stiffness i j) sp
        = sp ++ (List.range cols.toNat).flatMap (fun (j : Nat) =>
            springsAt rows cols spacing stiffness i (j : Int)) :=
    fun i sp => forLoop_append_eq cols _ sp
  simp only [inner]
  exact forLoop_append_eq rows _ _

theorem grid_length {α : Type} (f : Nat → Nat → α) (r c : Nat) :
    ((List.range r).flatMap (fun (i : Nat) => (List.range c).map (f i))).length = r * c := by
  induction r with
  | zero => simp
  | succ n ih =>
    rw [List.range_succ, List.flatMap_append, List.length_append, ih]
    simp [Nat.succ_mul]

theorem grid_getElem_opt {α : Type} (f : Nat → Nat → α) (r c i j : Nat)
    (hi : i < r) (hj : j < c) :
    ((List.range r).flatMap (fun (i : Nat) => (List.range c).map (f i)))[i * c + j]?
      = some (f i j) := by
  induction r with
  | zero => omega
  | succ n ih =>
    rw [List.range_succ, List.flatMap_append]
    by_cases h : i < n
    · have hlt : i * c + j < n * c := by
        calc i * c + j < i * c + c := by omega
          _ = (i + 1) * c := by ring
          _ ≤ n * c := Nat.mul_le_mul_right c h
      rw [List.getElem?_append_left (by rw [grid_length]; exact hlt)]
      exact ih h
    · have hin : i = n := by omega
      subst hin
      rw [List.getElem?_append_right (by rw [grid_length]; omega), grid_length]
      simp [hj]

/-- The particle vector built on the empty state, for grid sizes given as naturals. -/
theorem built_particles {F : Type} [Add F] [Sub F] [Mul F] [Div F] [Neg F] [Zero F]
    [IntCast F] [OfScientific F] [LT F] [DecidableRel (fun a b : F => a < b)] [DecidableEq F]
    (r c : Nat) (spacing stiffness : F) :
    (createSoftBody (r : Int) (c : Int) spacing stiffness State.empty).particles
      = (List.range r).flatMap (fun (i : Nat) =>
          (List.range c).map (fun (j : Nat) =>
            mkParticle (r : Int) (c : Int) spacing (i : Int) (j : Int))) := by
  rw [createSoftBody_particles]
  simp [State.empty]

theorem built_getParticle {F : Type} [Add F] [Sub F] [Mul F] [Div F] [Neg F] [Zero F]
    [IntCast F] [OfScientific F] [LT F] [DecidableRel (fun a b : F => a < b)] [DecidableEq F]
    (r c i j : Nat) (spacing stiffness : F) (hi : i < r) (hj : j < c) :
    getParticle (createSoftBody (r : Int) (c : Int) spacing stiffness State.empty).particles
        ((i : Int) * (c : Int) + (j : Int))
      = some (mkParticle (r : Int) (c : Int) spacing (i : Int) (j : Int)) := by
  rw [built_particles]
  unfold getParticle
  have h0 : (0 : Int) ≤ (i : Int) * (c : Int) + (j : Int) := by positivity
  have hn : ((i : Int) * (c : Int) + (j : Int)).toNat = i * c + j := by
    have : (i : Int) * (c : Int) + (j : Int) = ((i * c + j : Nat) : Int) := by push_cast; ring
    rw [this, Int.toNat_natCast]
  rw [if_pos h0, hn]
  exact grid_getElem_opt
    (fun (i j : Nat) => mkParticle (r : Int) (c : Int) spacing (i : Int) (j : Int))
    r c i j hi hj

/-- The grid built on the empty state, in any arithmetic: `rows * cols` particles, the one at
index `i * cols + j` being the particle the loop body builds at `(i, j)`. -/
theorem built_grid {F : Type} [Add F] [Sub F] [Mul F] [Div F] [Neg F] [Zero F]
    [IntCast F] [OfScientific F] [LT F] [DecidableRel (fun a b : F => a < b)] [DecidableEq F]
    (rows cols : Int) (spacing stiffness : F) (hr : 0 < rows) (hc : 0 < cols) :
    ((createSoftBody rows cols spacing stiffness State.empty).particles.length : Int)
        = rows * cols ∧
    ∀ i j : Int, 0 ≤ i → i < rows → 0 ≤ j → j < cols →
      getParticle (createSoftBody rows cols spacing stiffness State.empty).particles
        (i * cols + j) = some (mkParticle rows cols spacing i j) := by
  lift rows to Nat using le_of_lt hr
  lift cols to Nat using le_of_lt hc
  constructor
  · rw [built_particles, grid_length]; push_cast; ring
  · intro i j hi0 hi hj0 hj
    lift i to Nat using hi0
    lift j to Nat using hj0
    exact built_getParticle rows cols i j spacing stiffness (by exact_mod_cast hi)
      (by exact_mod_cast hj)

/-- The grid built on the empty state, in exact arithmetic: the particle at index `i * cols + j`
has `x = j*spacing - (cols*spacing)/2`, `y = i*spacing + 0.5` and zero velocity as numbers of an
ordered field. -/
theorem built_grid_exact {F : Type} [LinearOrderedField F]
    (rows cols : Int) (spacing stiffness : F) (hr : 0 < rows) (hc : 0 < cols) :
    ((createSoftBody rows cols spacing stiffness State.empty).particles.length : Int)
        = rows * cols ∧
    ∀ i j : Int, 0 ≤ i → i < rows → 0 ≤ j → j < cols →
      ∃ p, getParticle (createSoftBody rows cols spacing stiffness State.empty).particles
            (i * cols + j) = some p ∧
        p.x = (j : F) * spacing - ((cols : F) * spacing) / 2 ∧
        p.y = (i : F) * spacing + 0.5 ∧ p.vx = 0 ∧ p.vy = 0 ∧
        (p.pinned = true ↔ (i = rows - 1 ∧ (j = 0 ∨ j = cols - 1))) := by
  obtain ⟨hlen, hget⟩ := built_grid rows cols spacing stiffness hr hc
  refine ⟨hlen, fun i j hi0 hi hj0 hj => ⟨_, hget i j hi0 hi hj0 hj, ?_⟩⟩
  simp only [mkParticle]
  refine ⟨by norm_num, by norm_num, by norm_num, by norm_num, by simp⟩

/-- C5 (particle grid, amended): for `rows > 0` and `cols > 0`, `createSoftBody` on the empty
state yields exactly `rows * cols` particles, and the particle at index `i * cols + j` has for
`x` and `y` the values of the source expressions `j * spacing - (cols * spacing) / 2.0f` and
`i * spacing + 0.5f` in the arithmetic the program runs (any `F`; in binary32 every operation
is rounded, in an ordered field they are the exact numbers), velocity `0.0f`, and is pinned iff
`i = rows - 1` and (`j = 0` or `j = cols - 1`). -/
theorem particle_grid {F : Type} [Add F] [Sub F] [Mul F] [Div F] [Neg F] [Zero F]
    [IntCast F] [OfScientific F] [LT F] [DecidableRel (fun a b : F => a < b)] [DecidableEq F]
    (rows cols : Int) (spacing stiffness : F) (hr : 0 < rows) (hc : 0 < cols) :
    ((createSoftBody rows cols spacing stiffness State.empty).particles.length : Int)
        = rows * cols ∧
    ∀ i j : Int, 0 ≤ i → i < rows → 0 ≤ j → j < cols →
      ∃ p, getParticle (createSoftBody rows cols spacing stiffness State.empty).particles
            (i * cols + j) = some p ∧
        p.x = (j : F) * spacing - ((cols : F) * spacing) / 2.0 ∧
        p.y = (i : F) * spacing + 0.5 ∧ p.vx = 0.0 ∧ p.vy = 0.0 ∧
        (p.pinned = true ↔ (i = rows - 1 ∧ (j = 0 ∨ j = cols - 1))) := by
  obtain ⟨hlen, hget⟩ := built_grid rows cols spacing stiffness hr hc
  refine ⟨hlen, fun i j hi0 hi hj0 hj => ⟨_, hget i j hi0 hi hj0 hj, ?_⟩⟩
  exact ⟨rfl, rfl, rfl, rfl, by simp [mkParticle]⟩

/-! The springs built by `createSoftBody`. -/

theorem built_springs {F : Type} [Add F] [Sub F] [Mul F] [Div F] [Neg F] [Zero F]
    [IntCast F] [OfScientific F] [LT F] [DecidableRel (fun a b : F => a < b)] [DecidableEq F]
    (r c : Nat) (spacing stiffness : F) :
    (createSoftBody (r : Int) (c : Int) spacing stiffness State.empty).springs
      = (List.range r).flatMap (fun (i : Nat) => (List.range c).flatMap (fun (j : Nat) =>
          springsAt (r : Int) (c : Int) spacing stiffness (i : Int) (j : Int))) := by
  rw [createSoftBody_springs]
  simp [State.empty]

theorem mem_springsAt {F : Type}
    (rows cols : Int) (spacing stiffness : F) (i j : Int) (sp : Spring F) :
    sp ∈ springsAt rows cols spacing stiffness i j ↔
      (j < cols - 1 ∧ sp = { a := i * cols + j, b := i * cols + j + 1,
                              restLength := spacing, k := stiffness }) ∨
      (i < rows - 1 ∧ sp = { a := i * cols + j, b := (i + 1) * cols + j,
                              restLength := spacing, k := stiffness }) := by
  have e : (i + 1) * cols + j = i * cols + j + cols := by ring
  unfold springsAt
  rw [e]
  split_ifs <;> simp [*]

/-- Membership in the spring vector built on the empty state. -/
theorem mem_built_springs {F : Type} [Add F] [Sub F] [Mul F] [Div F] [Neg F] [Zero F]
    [IntCast F] [OfScientific F] [LT F] [DecidableRel (fun a b : F => a < b)] [DecidableEq F]
    (rows cols : Int) (spacing stiffness : F) (sp : Spring F) :
    sp ∈ (createSoftBody rows cols spacing stiffness State.empty).springs ↔
      (∃ i j : Int, 0 ≤ i ∧ i < rows ∧ 0 ≤ j ∧ j < cols - 1 ∧
        sp = { a := i * cols + j, b := i * cols + j + 1, restLength := spacing, k := stiffness }) ∨
      (∃ i j : Int, 0 ≤ i ∧ i < rows - 1 ∧ 0 ≤ j ∧ j < cols ∧
        sp = { a := i * cols + j, b := (i + 1) * cols + j,
               restLength := spacing, k := stiffness }) := by
  rw [createSoftBody_springs]
  simp only [State.empty, List.nil_append, List.mem_flatMap, List.mem_range, mem_springsAt]
  constructor
  · rintro ⟨i, hi, j, hj, h⟩
    have hi2 : (i : Int) < rows := by omega
    have hj2 : (j : Int) < cols := by omega
    rcases h with ⟨h1, h2⟩ | ⟨h1, h2⟩
    · exact Or.inl ⟨i, j, by omega, hi2, by omega, h1, h2⟩
    · exact Or.inr ⟨i, j, by omega, h1, by omega, hj2, h2⟩
  · rintro (⟨i, j, hi0, hi, hj0, hj, h⟩ | ⟨i, j, hi0, hi, hj0, hj, h⟩)
    · refine ⟨i.toNat, by omega, j.toNat, by omega, Or.inl ?_⟩
      rw [Int.toNat_of_nonneg hi0, Int.toNat_of_nonneg hj0]
      exact ⟨hj, h⟩
    · refine ⟨i.toNat, by omega, j.toNat, by omega, Or.inr ?_⟩
      rw [Int.toNat_of_nonneg hi0, Int.toNat_of_nonneg hj0]
      exact ⟨hi, h⟩

theorem row_springs_length {F : Type} (rows cols : Int) (spacing stiffness : F) (i : Int) (c : Nat)
    (hc : cols = (c : Int)) (n : Nat) (hn : n ≤ c) :
    ((List.range n).flatMap (fun (j : Nat) =>
        springsAt rows cols spacing stiffness i (j : Int))).length
      = min n (c - 1) + (if i < rows - 1 then n else 0) := by
  induction n with
  | zero => simp
  | succ m ih =>
    rw [List.range_succ, List.flatMap_append, List.length_append, ih (by omega)]
    simp only [List.flatMap_cons, List.flatMap_nil, List.append_nil, springsAt, List.length_append]
    split_ifs <;> simp <;> omega

theorem grid_springs_length {F : Type} (rows cols : Int) (spacing stiffness : F) (r c : Nat)
    (hr : rows = (r : Int)) (hc : cols = (c : Int)) (n : Nat) (hn : n ≤ r) :
    ((List.range n).flatMap (fun (i : Nat) => (List.range c).flatMap (fun (j : Nat) =>
        springsAt rows cols spacing stiffness (i : Int) (j : Int)))).length
      = n * (c - 1) + min n (r - 1) * c := by
  induction n with
  | zero => simp
  | succ m ih =>
    rw [List.range_succ, List.flatMap_append, List.length_append, ih (by omega)]
    simp only [List.flatMap_cons, List.flatMap_nil, List.append_nil]
    rw [row_springs_length rows cols spacing stiffness (m : Int) c hc c (le_refl c)]
    have hmin : min c (c - 1) = c - 1 := by omega
    rw [hmin]
    by_cases hm : m < r - 1
    · have h1 : ((m : Int) < rows - 1) := by omega
      rw [if_pos h1, Nat.min_eq_left (by omega : m ≤ r - 1),
        Nat.min_eq_left (by omega : m + 1 ≤ r - 1)]
      ring
    · have h1 : ¬ ((m : Int) < rows - 1) := by omega
      rw [if_neg h1, Nat.min_eq_right (by omega : r - 1 ≤ m),
        Nat.min_eq_right (by omega : r - 1 ≤ m + 1)]
      ring

theorem springsAt_fst {F : Type}
    (rows cols : Int) (spacing stiffness : F) (i j : Int) (x : Int × Int)
    (hx : x ∈ (springsAt rows cols spacing stiffness i j).map (fun sp => (sp.a, sp.b))) :
    x.1 = i * cols + j := by
  rw [List.mem_map] at hx
  obtain ⟨sp, hsp, rfl⟩ := hx
  rcases (mem_springsAt rows cols spacing stiffness i j sp).mp hsp with ⟨_, h⟩ | ⟨_, h⟩ <;>
    rw [h]

theorem springsAt_nodup {F : Type}
    (rows cols : Int) (spacing stiffness : F) (i j : Int) (hj : 0 ≤ j) :
    ((springsAt rows cols spacing stiffness i j).map (fun sp => (sp.a, sp.b))).Nodup := by
  unfold springsAt
  split_ifs with h1 h2
  · simp only [List.singleton_append, List.map_cons, List.map_nil, List.nodup_cons,
      List.mem_singleton, Prod.mk.injEq, true_and, List.not_mem_nil, not_false_eq_true,
      List.nodup_nil, and_true]
    omega
  · simp
  · simp
  · simp

theorem built_springs_nodup {F : Type} (r c : Nat) (spacing stiffness : F) :
    (((List.range r).flatMap (fun (i : Nat) => (List.range c).flatMap (fun (j : Nat) =>
        springsAt (r : Int) (c : Int) spacing stiffness (i : Int) (j : Int)))).map
      (fun sp => (sp.a, sp.b))).Nodup := by
  have hrow : ∀ (i : Nat) (x : Int × Int),
      x ∈ (List.range c).flatMap (fun (j : Nat) =>
        (springsAt (r : Int) (c : Int) spacing stiffness (i : Int) (j : Int)).map
          (fun sp => (sp.a, sp.b))) →
      ∃ j : Nat, j < c ∧ x.1 = (i : Int) * (c : Int) + (j : Int) := by
    intro i x hx
    rw [List.mem_flatMap] at hx
    obtain ⟨j, hj, hxj⟩ := hx
    exact ⟨j, List.mem_range.mp hj, springsAt_fst _ _ _ _ _ _ x hxj⟩
  simp only [List.map_flatMap]
  rw [List.nodup_flatMap]
  constructor
  · intro i _
    rw [List.nodup_flatMap]
    constructor
    · intro j _
      exact springsAt_nodup _ _ _ _ _ _ (by positivity)
    · refine (List.pairwise_lt_range c).imp ?_
      intro j1 j2 hlt x h1 h2
      have e1 := springsAt_fst _ _ _ _ _ _ x h1
      have e2 := springsAt_fst _ _ _ _ _ _ x h2
      omega
  · refine (List.pairwise_lt_range r).imp ?_
    intro i1 i2 hlt x h1 h2
    obtain ⟨j1, hj1, e1⟩ := hrow i1 x h1
    obtain ⟨j2, hj2, e2⟩ := hrow i2 x h2
    have hle : ((i1 : Int) + 1) * (c : Int) ≤ (i2 : Int) * (c : Int) :=
      mul_le_mul_of_nonneg_right (by omega) (by positivity)
    have hj1' : (j1 : Int) < (c : Int) := by omega
    have hj2' : (0 : Int) ≤ (j2 : Int) := by positivity
    have : (i1 : Int) * (c : Int) + (j1 : Int) < (i2 : Int) * (c : Int) + (j2 : Int) := by
      nlinarith
    omega

/-- The number of springs built on the empty state. -/
theorem built_springs_count {F : Type} [Add F] [Sub F] [Mul F] [Div F] [Neg F] [Zero F]
    [IntCast F] [OfScientific F] [LT F] [DecidableRel (fun a b : F => a < b)] [DecidableEq F]
    (rows cols : Int) (spacing stiffness : F) (hr : 0 < rows) (hc : 0 < cols) :
    ((createSoftBody rows cols spacing stiffness State.empty).springs.length : Int)
      = rows * (cols - 1) + (rows - 1) * cols := by
  lift rows to Nat using le_of_lt hr
  lift cols to Nat using le_of_lt hc
  rw [built_springs,
    grid_springs_length (rows : Int) (cols : Int) spacing stiffness rows cols rfl rfl rows
      (le_refl rows)]
  have h1 : 1 ≤ rows := by exact_mod_cast hr
  have h2 : 1 ≤ cols := by exact_mod_cast hc
  rw [Nat.min_eq_right (by omega : rows - 1 ≤ rows)]
  push_cast [Nat.cast_sub h1, Nat.cast_sub h2]
  ring

/-- C6 (structural springs only): for `rows > 0` and `cols > 0` the springs built on the empty
state are exactly the horizontal springs `(i*cols+j, i*cols+j+1)` for `0 ≤ i < rows`,
`0 ≤ j < cols-1` and the vertical springs `(i*cols+j, (i+1)*cols+j)` for `0 ≤ i < rows-1`,
`0 ≤ j < cols`, each with `restLength = spacing` and `k = stiffness`; no index pair occurs
twice, and there are `rows*(cols-1) + (rows-1)*cols` springs. -/
theorem structural_springs {F : Type} [LinearOrderedField F]
    (rows cols : Int) (spacing stiffness : F)
    (hr : 0 < rows) (hc : 0 < cols) :
    (∀ sp : Spring F, sp ∈ (createSoftBody rows cols spacing stiffness State.empty).springs ↔
      (∃ i j : Int, 0 ≤ i ∧ i < rows ∧ 0 ≤ j ∧ j < cols - 1 ∧
        sp = { a := i * cols + j, b := i * cols + j + 1, restLength := spacing, k := stiffness }) ∨
      (∃ i j : Int, 0 ≤ i ∧ i < rows - 1 ∧ 0 ≤ j ∧ j < cols ∧
        sp = { a := i * cols + j, b := (i + 1) * cols + j,
               restLength := spacing, k := stiffness })) ∧
    (∀ sp ∈ (createSoftBody rows cols spacing stiffness State.empty).springs,
      sp.restLength = spacing ∧ sp.k = stiffness) ∧
    ((createSoftBody rows cols spacing stiffness State.empty).springs.map
      (fun sp => (sp.a, sp.b))).Nodup ∧
    ((createSoftBody rows cols spacing stiffness State.empty).springs.length : Int)
      = rows * (cols - 1) + (rows - 1) * cols := by
  refine ⟨mem_built_springs rows cols spacing stiffness, fun sp hsp => ?_, ?_, ?_⟩
  · rcases (mem_built_springs rows cols spacing stiffness sp).mp hsp with
      ⟨_, _, _, _, _, _, h⟩ | ⟨_, _, _, _, _, _, h⟩ <;> rw [h] <;> exact ⟨rfl, rfl⟩
  · lift rows to Nat using le_of_lt hr
    lift cols to Nat using le_of_lt hc
    rw [built_springs]
    exact built_springs_nodup rows cols spacing stiffness
  · exact built_springs_count rows cols spacing stiffness hr hc

/-! Spring indices stay valid. -/

theorem grid_index_bounds {rows cols i j : Int} (hi0 : 0 ≤ i) (hi : i < rows) (hj0 : 0 ≤ j)
    (hj : j < cols) : 0 ≤ i * cols + j ∧ i * cols + j < rows * cols := by
  have hc : 0 ≤ cols := by omega
  have h1 : 0 ≤ i * cols := mul_nonneg hi0 hc
  have h2 : (i + 1) * cols ≤ rows * cols := mul_le_mul_of_nonneg_right (by omega) hc
  constructor
  · omega
  · nlinarith

/-- Every spring built on the empty state joins two distinct indices below `rows * cols`. -/
theorem built_springs_valid {F : Type} [Add F] [Sub F] [Mul F] [Div F] [Neg F] [Zero F]
    [IntCast F] [OfScientific F] [LT F] [DecidableRel (fun a b : F => a < b)] [DecidableEq F]
    (rows cols : Int) (spacing stiffness : F) (sp : Spring F)
    (hsp : sp ∈ (createSoftBody rows cols spacing stiffness State.empty).springs) :
    0 ≤ sp.a ∧ sp.a < rows * cols ∧ 0 ≤ sp.b ∧ sp.b < rows * cols ∧ sp.a ≠ sp.b := by
  rcases (mem_built_springs rows cols spacing stiffness sp).mp hsp with
    ⟨i, j, hi0, hi, hj0, hj, h⟩ | ⟨i, j, hi0, hi, hj0, hj, h⟩
  · have ha := grid_index_bounds hi0 hi hj0 (by omega : j < cols)
    have hb := grid_index_bounds hi0 hi (by omega : 0 ≤ j + 1) (by omega : j + 1 < cols)
    rw [h]
    refine ⟨ha.1, ha.2, ?_, ?_, ?_⟩
    · show 0 ≤ i * cols + j + 1
      omega
    · show i * cols + j + 1 < rows * cols
      have := hb.2
      linarith
    · show i * cols + j ≠ i * cols + j + 1
      omega
  · have ha := grid_index_bounds hi0 (by omega : i < rows) hj0 hj
    have hb := grid_index_bounds (by omega : 0 ≤ i + 1) (by omega : i + 1 < rows) hj0 hj
    rw [h]
    refine ⟨ha.1, ha.2, hb.1, hb.2, ?_⟩
    show i * cols + j ≠ (i + 1) * cols + j
    intro e
    have : (i + 1) * cols + j = i * cols + j + cols := by ring
    omega

theorem built_springsInRange {F : Type} [LinearOrderedField F]
    (rows cols : Int) (spacing stiffness : F)
    (hr : 0 < rows) (hc : 0 < cols) :
    SpringsInRange (createSoftBody rows cols spacing stiffness State.empty) := by
  have hlen := (built_grid_exact rows cols spacing stiffness hr hc).1
  intro sp hsp
  obtain ⟨h1, h2, h3, h4, _⟩ := built_springs_valid rows cols spacing stiffness sp hsp
  rw [hlen]
  exact ⟨h1, h2, h3, h4⟩

/-- C7 (spring index validity): for `rows > 0` and `cols > 0` every spring built on the empty
state has `0 ≤ a < rows*cols`, `0 ≤ b < rows*cols` and `a ≠ b`; any number `n` of
`updatePhysics` calls from that state returns a state with the same springs and the same
`rows*cols` particles, in which both lookups `particles[s.a]` and `particles[s.b]` of every
spring have a value. -/
theorem spring_index_validity {F : Type} [LinearOrderedField F]
    (sqrt : F → F) (rows cols : Int) (spacing stiffness : F)
    (hr : 0 < rows) (hc : 0 < cols) :
    (∀ sp ∈ (createSoftBody rows cols spacing stiffness State.empty).springs,
      0 ≤ sp.a ∧ sp.a < rows * cols ∧ 0 ≤ sp.b ∧ sp.b < rows * cols ∧ sp.a ≠ sp.b) ∧
    ∀ n : Nat, ∃ st,
      updatePhysicsN sqrt n (createSoftBody rows cols spacing stiffness State.empty) = some st ∧
      st.springs = (createSoftBody rows cols spacing stiffness State.empty).springs ∧
      (st.particles.length : Int) = rows * cols ∧
      ∀ sp ∈ st.springs,
        0 ≤ sp.a ∧ sp.a < (st.particles.length : Int) ∧
        0 ≤ sp.b ∧ sp.b < (st.particles.length : Int) ∧ sp.a ≠ sp.b ∧
        (getParticle st.particles sp.a).isSome = true ∧
        (getParticle st.particles sp.b).isSome = true := by
  refine ⟨built_springs_valid rows cols spacing stiffness, fun n => ?_⟩
  have hlen := (built_grid_exact rows cols spacing stiffness hr hc).1
  obtain ⟨st, hst, hs, hl, _⟩ := updatePhysicsN_spec sqrt guard_exact floor_exact n _
    (built_springsInRange rows cols spacing stiffness hr hc)
  refine ⟨st, hst, hs, by rw [hl]; exact hlen, fun sp hsp => ?_⟩
  rw [hs] at hsp
  obtain ⟨h1, h2, h3, h4, h5⟩ := built_springs_valid rows cols spacing stiffness sp hsp
  rw [hl, hlen]
  have hra : InRange st.particles.length sp.a := ⟨h1, by rw [hl, hlen]; exact h2⟩
  have hrb : InRange st.particles.length sp.b := ⟨h3, by rw [hl, hlen]; exact h4⟩
  obtain ⟨pa, hpa, _⟩ := getParticle_of_inRange hra
  obtain ⟨pb, hpb, _⟩ := getParticle_of_inRange hrb
  exact ⟨h1, h2, h3, h4, h5, by rw [hpa]; rfl, by rw [hpb]; rfl⟩

/-! The first step after the build. -/

/-- A spring between two distinct particles whose distance is its rest length leaves the
particle vector unchanged. -/
theorem applySpring_rest {F : Type} [LinearOrderedField F]
    (sqrt : F → F) {ps : List (Particle F)} {s : Spring F}
    {p1 p2 : Particle F} (h1 : getParticle ps s.a = some p1) (h2 : getParticle ps s.b = some p2)
    (hab : s.a ≠ s.b) (hrest : specDist sqrt p1 p2 = s.restLength) :
    applySpring sqrt ps s = some ps := by
  by_cases hd : specDist sqrt p1 p2 ≤ 0.0001
  · exact applySpring_skip sqrt h1 h2 (not_lt.mpr hd)
  · rw [applySpring_active sqrt guard_exact h1 h2 hab (not_le.mp hd)]
    obtain ⟨hra, h1n⟩ := getParticle_some h1
    obtain ⟨hrb, h2n⟩ := getParticle_some h2
    have hA : specKickA sqrt s p1 p2 = p1 := by
      unfold specKickA specForceX specForceY
      rw [hrest]
      split_ifs
      · rfl
      · cases p1; simp
    have hB : specKickB sqrt s p1 p2 = p2 := by
      unfold specKickB specForceX specForceY
      rw [hrest]
      split_ifs
      · rfl
      · cases p2; simp
    rw [hA, hB, set_eq_self h1n, set_eq_self h2n]

theorem springPass_fixed {F : Type} [Add F] [Sub F] [Mul F] [Div F] [Neg F] [Zero F]
    [IntCast F] [OfScientific F] [LT F] [DecidableRel (fun a b : F => a < b)] [DecidableEq F]
    (sqrt : F → F) (ps : List (Particle F)) (springs : List (Spring F))
    (h : ∀ s ∈ springs, applySpring sqrt ps s = some ps) :
    springPass sqrt springs ps = some ps := by
  unfold springPass
  induction springs with
  | nil => rfl
  | cons s t ih =>
    rw [List.foldlM_cons, h s (List.mem_cons_self s t)]
    exact ih (fun s2 hs2 => h s2 (List.mem_cons_of_mem s hs2))

/-- In the state built on the empty state every spring joins two particles whose distance is
`spacing`, provided `sqrt (x * x) = x` for `x ≥ 0`. -/
theorem built_springs_rest {F : Type} [LinearOrderedField F]
    (sqrt : F → F) (hsqrt : ∀ x : F, 0 ≤ x → sqrt (x * x) = x)
    (rows cols : Int) (spacing stiffness : F) (hr : 0 < rows) (hc : 0 < cols)
    (hsp : 0 < spacing) (sp : Spring F)
    (hmem : sp ∈ (createSoftBody rows cols spacing stiffness State.empty).springs) :
    ∃ p1 p2,
      getParticle (createSoftBody rows cols spacing stiffness State.empty).particles sp.a
        = some p1 ∧
      getParticle (createSoftBody rows cols spacing stiffness State.empty).particles sp.b
        = some p2 ∧
      specDist sqrt p1 p2 = sp.restLength := by
  have hgrid := (built_grid_exact rows cols spacing stiffness hr hc).2
  rcases (mem_built_springs rows cols spacing stiffness sp).mp hmem with
    ⟨i, j, hi0, hi, hj0, hj, h⟩ | ⟨i, j, hi0, hi, hj0, hj, h⟩
  · obtain ⟨p1, g1, x1, y1, _⟩ := hgrid i j hi0 hi hj0 (by omega)
    obtain ⟨p2, g2, x2, y2, _⟩ := hgrid i (j + 1) hi0 hi (by omega) (by omega)
    have e : i * cols + (j + 1) = i * cols + j + 1 := by ring
    rw [e] at g2
    refine ⟨p1, p2, by rw [h]; exact g1, by rw [h]; exact g2, ?_⟩
    have hsq : (p2.x - p1.x) * (p2.x - p1.x) + (p2.y - p1.y) * (p2.y - p1.y)
        = spacing * spacing := by
      rw [x1, x2, y1, y2]; push_cast; ring
    unfold specDist
    rw [hsq, hsqrt spacing (le_of_lt hsp), h]
  · obtain ⟨p1, g1, x1, y1, _⟩ := hgrid i j hi0 (by omega) hj0 hj
    obtain ⟨p2, g2, x2, y2, _⟩ := hgrid (i + 1) j (by omega) (by omega) hj0 hj
    refine ⟨p1, p2, by rw [h]; exact g1, by rw [h]; exact g2, ?_⟩
    have hsq : (p2.x - p1.x) * (p2.x - p1.x) + (p2.y - p1.y) * (p2.y - p1.y)
        = spacing * spacing := by
      rw [x1, x2, y1, y2]; push_cast; ring
    unfold specDist
    rw [hsq, hsqrt spacing (le_of_lt hsp), h]

/-- Every particle built on the empty state has zero velocity and `y ≥ 0.5` when
`spacing ≥ 0`. -/
theorem built_particle_mem {F : Type} [LinearOrderedField F]
    (rows cols : Int) (spacing stiffness : F) (hsp : 0 ≤ spacing)
    (p : Particle F)
    (hp : p ∈ (createSoftBody rows cols spacing stiffness State.empty).particles) :
    p.vx = 0 ∧ p.vy = 0 ∧ (0.5 : F) ≤ p.y := by
  rw [createSoftBody_particles] at hp
  simp only [State.empty, List.nil_append, List.mem_flatMap, List.mem_map, List.mem_range] at hp
  obtain ⟨i, _, j, _, rfl⟩ := hp
  simp only [mkParticle]
  refine ⟨by norm_num, by norm_num, ?_⟩
  have : (0 : F) ≤ ((i : Int) : F) * spacing :=
    mul_nonneg (by exact_mod_cast Int.natCast_nonneg i) hsp
  linarith

theorem integrate_free_fall {F : Type} [LinearOrderedField F]
    {p : Particle F} (hpin : p.pinned = false) (hvx : p.vx = 0)
    (hvy : p.vy = 0) (hy : (0.5 : F) ≤ p.y) :
    (integrate p).x = p.x ∧ (integrate p).vx = 0 ∧ (integrate p).vy = GRAVITY * TIMESTEP ∧
    (integrate p).y = p.y + GRAVITY * TIMESTEP * TIMESTEP ∧ (integrate p).y < p.y := by
  have hg : (GRAVITY : F) * TIMESTEP * TIMESTEP = -0.0004608 := by
    unfold GRAVITY TIMESTEP; norm_num
  have hno : ¬ (p.y + (p.vy + GRAVITY * TIMESTEP) * TIMESTEP < -0.9) := by
    rw [hvy, zero_add, hg, not_lt]
    have : (-0.9 : F) ≤ 0.5 + -0.0004608 := by norm_num
    linarith
  have hint : integrate p =
      { p with
        x := p.x + p.vx * TIMESTEP
        y := p.y + (p.vy + GRAVITY * TIMESTEP) * TIMESTEP
        vy := p.vy + GRAVITY * TIMESTEP } := by
    simp only [integrate, hpin, Bool.false_eq_true, if_false, hno]
  rw [hint]
  simp only [hvx, hvy, zero_mul, add_zero, zero_add]
  refine ⟨trivial, trivial, trivial, trivial, ?_⟩
  rw [hg]
  have : (-0.0004608 : F) < 0 := by norm_num
  linarith

/-- C8 (first step after build): for `rows > 0`, `cols > 0`, `spacing > 0`, in the state built
on the empty state every spring joins two particles at distance `restLength`, so pass 1 returns
the particle vector unchanged (zero spring force), and one `updatePhysics` call returns a state
in which every pinned particle is unchanged (same `x`, `y`) and every unpinned particle keeps
its `x` and `vx = 0`, has `vy = GRAVITY * TIMESTEP` and `y = y0 + GRAVITY * TIMESTEP * TIMESTEP`,
strictly below its initial `y0`.  The square root is any function with `sqrt (x * x) = x` for
`x ≥ 0`. -/
theorem first_step_after_build {F : Type} [LinearOrderedField F]
    (sqrt : F → F) (hsqrt : ∀ x : F, 0 ≤ x → sqrt (x * x) = x)
    (rows cols : Int) (spacing stiffness : F) (hr : 0 < rows) (hc : 0 < cols)
    (hsp : 0 < spacing) :
    (∀ sp ∈ (createSoftBody rows cols spacing stiffness State.empty).springs,
      ∃ p1 p2,
        getParticle (createSoftBody rows cols spacing stiffness State.empty).particles sp.a
          = some p1 ∧
        getParticle (createSoftBody rows cols spacing stiffness State.empty).particles sp.b
          = some p2 ∧
        specDist sqrt p1 p2 = sp.restLength) ∧
    springPass sqrt (createSoftBody rows cols spacing stiffness State.empty).springs
        (createSoftBody rows cols spacing stiffness State.empty).particles
      = some (createSoftBody rows cols spacing stiffness State.empty).particles ∧
    ∃ st, updatePhysics sqrt (createSoftBody rows cols spacing stiffness State.empty) = some st ∧
      ∀ (n : Nat) (p : Particle F),
        (createSoftBody rows cols spacing stiffness State.empty).particles[n]? = some p →
        ∃ q, st.particles[n]? = some q ∧
          (p.pinned = true → q.x = p.x ∧ q.y = p.y ∧ q = p) ∧
          (p.pinned = false →
            q.x = p.x ∧ q.vx = 0 ∧ q.vy = GRAVITY * TIMESTEP ∧
            q.y = p.y + GRAVITY * TIMESTEP * TIMESTEP ∧ q.y < p.y) := by
  have hrest := built_springs_rest sqrt hsqrt rows cols spacing stiffness hr hc hsp
  have hpass : springPass sqrt (createSoftBody rows cols spacing stiffness State.empty).springs
      (createSoftBody rows cols spacing stiffness State.empty).particles
      = some (createSoftBody rows cols spacing stiffness State.empty).particles := by
    refine springPass_fixed sqrt _ _ (fun sp hmem => ?_)
    obtain ⟨p1, p2, g1, g2, hd⟩ := hrest sp hmem
    exact applySpring_rest sqrt g1 g2
      (built_springs_valid rows cols spacing stiffness sp hmem).2.2.2.2 hd
  refine ⟨hrest, hpass, _, by simp [updatePhysics, hpass]; rfl, fun n p hp => ?_⟩
  refine ⟨integrate p, by simp [integratePass, hp], fun hpin => ?_, fun hpin => ?_⟩
  · rw [integrate_pinned hpin]; exact ⟨rfl, rfl, rfl⟩
  · obtain ⟨hvx, hvy, hy⟩ := built_particle_mem rows cols spacing stiffness (le_of_lt hsp) p
      (List.getElem?_mem hp)
    exact integrate_free_fall hpin hvx hvy hy

/-! Construction parameters and the pinned corners. -/

/-- C9 (amended): `createSoftBody` has no failure path, it always returns a state.  With
`rows < 1` or `cols < 1` it leaves the empty state empty; with `rows ≥ 1` and `cols ≥ 1` it
builds all `rows * cols` particles and `rows*(cols-1) + (rows-1)*cols` springs whatever the
values of `spacing` and `stiffness` are, zero and negative ones included. -/
theorem createSoftBody_no_failure {F : Type} [LinearOrderedField F]
    (rows cols : Int) (spacing stiffness : F) :
    (rows < 1 ∨ cols < 1 →
      createSoftBody rows cols spacing stiffness State.empty = State.empty) ∧
    (1 ≤ rows → 1 ≤ cols →
      ((createSoftBody rows cols spacing stiffness State.empty).particles.length : Int)
        = rows * cols ∧
      ((createSoftBody rows cols spacing stiffness State.empty).springs.length : Int)
        = rows * (cols - 1) + (rows - 1) * cols) := by
  constructor
  · intro h
    have hp := createSoftBody_particles rows cols spacing stiffness State.empty
    have hs := createSoftBody_springs rows cols spacing stiffness State.empty
    have hz : rows.toNat = 0 ∨ cols.toNat = 0 := by omega
    have hp2 : (createSoftBody rows cols spacing stiffness State.empty).particles = [] := by
      rw [hp]; rcases hz with hz | hz <;> simp [State.empty, hz]
    have hs2 : (createSoftBody rows cols spacing stiffness State.empty).springs = [] := by
      rw [hs]; rcases hz with hz | hz <;> simp [State.empty, hz]
    cases hst : createSoftBody rows cols spacing stiffness State.empty with
    | mk ps sp =>
      rw [hst] at hp2 hs2
      simp only at hp2 hs2
      rw [hp2, hs2]; rfl
  · intro hr hc
    exact ⟨(built_grid_exact rows cols spacing stiffness (by omega) (by omega)).1,
      built_springs_count rows cols spacing stiffness (by omega) (by omega)⟩

theorem corner_index_iff (r c i j : Nat) (hi : i < r) (hj : j < c) :
    ((i : Int) = (r : Int) - 1 ∧ ((j : Int) = 0 ∨ (j : Int) = (c : Int) - 1)) ↔
      (((i * c + j : Nat) : Int) = ((r : Int) - 1) * (c : Int) ∨
        ((i * c + j : Nat) : Int) = (r : Int) * (c : Int) - 1) := by
  push_cast
  have hrc : (r : Int) * (c : Int) = ((r : Int) - 1) * (c : Int) + (c : Int) := by ring
  by_cases hlast : i + 1 = r
  · have hi2 : (i : Int) = (r : Int) - 1 := by omega
    rw [hrc, ← hi2]
    generalize (i : Int) * (c : Int) = X
    constructor
    · rintro ⟨_, h | h⟩
      · left; omega
      · right; omega
    · rintro (h | h)
      · exact ⟨rfl, Or.inl (by omega)⟩
      · exact ⟨rfl, Or.inr (by omega)⟩
  · have hlt : ((i : Int) + 1) * (c : Int) ≤ ((r : Int) - 1) * (c : Int) :=
      mul_le_mul_of_nonneg_right (by omega) (by positivity)
    have he : ((i : Int) + 1) * (c : Int) = (i : Int) * (c : Int) + (c : Int) := by ring
    rw [he] at hlt
    rw [hrc]
    generalize (i : Int) * (c : Int) = X at hlt ⊢
    generalize ((r : Int) - 1) * (c : Int) = Y at hlt ⊢
    constructor
    · rintro ⟨h, _⟩; omega
    · rintro (h | h) <;> omega

theorem built_particle_at {F : Type} [Add F] [Sub F] [Mul F] [Div F] [Neg F] [Zero F]
    [IntCast F] [OfScientific F] [LT F] [DecidableRel (fun a b : F => a < b)] [DecidableEq F]
    (r c n : Nat) (spacing stiffness : F) (p : Particle F)
    (hp : (createSoftBody (r : Int) (c : Int) spacing stiffness State.empty).particles[n]?
      = some p) :
    ∃ i j : Nat, i < r ∧ j < c ∧ n = i * c + j ∧
      p = mkParticle (r : Int) (c : Int) spacing (i : Int) (j : Int) := by
  rw [built_particles] at hp
  obtain ⟨hlt, _⟩ := List.getElem?_eq_some.mp hp
  rw [grid_length] at hlt
  have hc : 0 < c := by
    rcases Nat.eq_zero_or_pos c with h | h
    · subst h; simp at hlt
    · exact h
  have hj : n % c < c := Nat.mod_lt n hc
  have hi : n / c < r := Nat.div_lt_of_lt_mul (by rw [Nat.mul_comm]; exact hlt)
  have hn : n = n / c * c + n % c := by
    have := Nat.div_add_mod n c
    rw [Nat.mul_comm] at this
    exact this.symm
  refine ⟨n / c, n % c, hi, hj, hn, ?_⟩
  have hg := grid_getElem_opt
    (fun (i j : Nat) => mkParticle (r : Int) (c : Int) spacing (i : Int) (j : Int)) r c
    (n / c) (n % c) hi hj
  rw [← hn, hp] at hg
  exact Option.some.inj hg

theorem last_row_count {F : Type} [Add F] [Sub F] [Mul F] [Div F] [Neg F] [Zero F]
    [IntCast F] [OfScientific F] [LT F] [DecidableRel (fun a b : F => a < b)] [DecidableEq F]
    (r c m : Nat) (spacing : F) (hm : (m : Int) = (r : Int) - 1)
    (hc : 0 < c) :
    List.countP (fun p : Particle F => p.pinned)
        ((List.range c).map (fun (j : Nat) =>
          mkParticle (r : Int) (c : Int) spacing (m : Int) (j : Int)))
      = if c = 1 then 1 else 2 := by
  rw [List.countP_map]
  obtain ⟨k, rfl⟩ : ∃ k, c = k + 1 := ⟨c - 1, by omega⟩
  rcases Nat.eq_zero_or_pos k with hk | hk
  · subst hk
    simp [mkParticle, hm, List.range_succ]
  · obtain ⟨k2, rfl⟩ : ∃ k2, k = k2 + 1 := ⟨k - 1, by omega⟩
    rw [List.range_succ, List.range_succ_eq_map, List.countP_append, List.countP_cons,
      List.countP_map]
    have hmid : List.countP (((fun p : Particle F => p.pinned) ∘ fun (j : Nat) =>
        mkParticle (r : Int) ((k2 + 1 + 1 : Nat) : Int) spacing (m : Int) (j : Int)) ∘ Nat.succ)
        (List.range k2) = 0 := by
      rw [List.countP_eq_zero]
      intro a ha
      have := List.mem_range.mp ha
      simp only [Function.comp, mkParticle, decide_eq_true_eq, not_and, not_or]
      intro _
      constructor
      · push_cast; omega
      · push_cast; omega
    rw [hmid]
    simp [mkParticle, hm]

theorem built_pinned_count {F : Type} [Add F] [Sub F] [Mul F] [Div F] [Neg F] [Zero F]
    [IntCast F] [OfScientific F] [LT F] [DecidableRel (fun a b : F => a < b)] [DecidableEq F]
    (r c : Nat) (spacing stiffness : F) (hr : 0 < r) (hc : 0 < c) :
    List.countP (fun p : Particle F => p.pinned)
        (createSoftBody (r : Int) (c : Int) spacing stiffness State.empty).particles
      = if c = 1 then 1 else 2 := by
  rw [built_particles]
  obtain ⟨m, rfl⟩ : ∃ m, r = m + 1 := ⟨r - 1, by omega⟩
  rw [List.range_succ, List.flatMap_append, List.countP_append]
  have hfirst : List.countP (fun p : Particle F => p.pinned)
      ((List.range m).flatMap (fun (i : Nat) => (List.range c).map (fun (j : Nat) =>
        mkParticle ((m + 1 : Nat) : Int) (c : Int) spacing (i : Int) (j : Int)))) = 0 := by
    rw [List.countP_eq_zero]
    intro p hp
    simp only [List.mem_flatMap, List.mem_map, List.mem_range] at hp
    obtain ⟨i, hi, j, _, rfl⟩ := hp
    simp only [mkParticle, decide_eq_true_eq, not_and]
    intro h
    push_cast at h
    omega
  rw [hfirst, Nat.zero_add]
  simp only [List.flatMap_cons, List.flatMap_nil, List.append_nil]
  exact last_row_count (m + 1) c m spacing (by push_cast; ring) hc

/-- C10 (amended): for `rows > 0` and `cols > 0`, in the state built on the empty state a
particle is pinned iff its index is `(rows-1)*cols` or `rows*cols - 1`, and both indices hold a
pinned particle.  These are two different indices iff `cols ≠ 1`: the number of pinned particles
is 2 when `cols ≥ 2` and 1 when `cols = 1`. -/
theorem pinned_corners {F : Type} [LinearOrderedField F]
    (rows cols : Int) (spacing stiffness : F) (hr : 0 < rows) (hc : 0 < cols) :
    (∀ (n : Nat) (p : Particle F),
      (createSoftBody rows cols spacing stiffness State.empty).particles[n]? = some p →
      (p.pinned = true ↔ ((n : Int) = (rows - 1) * cols ∨ (n : Int) = rows * cols - 1))) ∧
    (∃ p, getParticle (createSoftBody rows cols spacing stiffness State.empty).particles
        ((rows - 1) * cols) = some p ∧ p.pinned = true) ∧
    (∃ p, getParticle (createSoftBody rows cols spacing stiffness State.empty).particles
        (rows * cols - 1) = some p ∧ p.pinned = true) ∧
    ((rows - 1) * cols ≠ rows * cols - 1 ↔ cols ≠ 1) ∧
    List.countP (fun p : Particle F => p.pinned)
        (createSoftBody rows cols spacing stiffness State.empty).particles
      = (if cols = 1 then 1 else 2) := by
  have hgrid := (built_grid_exact rows cols spacing stiffness hr hc).2
  refine ⟨?_, ?_, ?_, ?_, ?_⟩
  · lift rows to Nat using le_of_lt hr
    lift cols to Nat using le_of_lt hc
    intro n p hp
    obtain ⟨i, j, hi, hj, hn, rfl⟩ := built_particle_at rows cols n spacing stiffness p hp
    rw [hn, ← corner_index_iff rows cols i j hi hj]
    simp [mkParticle]
  · obtain ⟨p, hp, _, _, _, _, hpin⟩ := hgrid (rows - 1) 0 (by omega) (by omega) le_rfl hc
    rw [add_zero] at hp
    exact ⟨p, hp, hpin.mpr ⟨rfl, Or.inl rfl⟩⟩
  · obtain ⟨p, hp, _, _, _, _, hpin⟩ :=
      hgrid (rows - 1) (cols - 1) (by omega) (by omega) (by omega) (by omega)
    have e : (rows - 1) * cols + (cols - 1) = rows * cols - 1 := by ring
    rw [e] at hp
    exact ⟨p, hp, hpin.mpr ⟨rfl, Or.inr rfl⟩⟩
  · have e : rows * cols - 1 = (rows - 1) * cols + (cols - 1) := by ring
    rw [e]
    generalize (rows - 1) * cols = X
    constructor <;> intro h <;> omega
  · lift rows to Nat using le_of_lt hr
    lift cols to Nat using le_of_lt hc
    rw [built_pinned_count rows cols spacing stiffness (by exact_mod_cast hr)
      (by exact_mod_cast hc)]
    have : ((cols : Int) = 1) ↔ cols = 1 := by omega
    simp only [this]

/-! Worked examples over `ℚ` with the square root `Rat.sqrt`, which is exact on squares. -/

theorem rat_sqrt_zero : Rat.sqrt 0 = 0 := by
  simp

theorem rat_sqrt_mul_self (x : ℚ) (hx : 0 ≤ x) : Rat.sqrt (x * x) = x := by
  rw [Rat.sqrt_eq, abs_of_nonneg hx]

theorem demoState_inRange : SpringsInRange demoState := by
  intro s hs
  simp only [demoState, List.mem_singleton] at hs
  subst hs
  simp [demoState, demoSpring]

/-- Witness of C1 on `demoState` with three steps. -/
theorem pinned_invariant_witness :
    SpringsInRange demoState ∧
    ∃ st2, updatePhysicsN Rat.sqrt 3 demoState = some st2 ∧
      ∀ (i : Nat) (p : Particle ℚ), demoState.particles[i]? = some p → p.pinned = true →
        ∃ q, st2.particles[i]? = some q ∧ q.x = p.x ∧ q.y = p.y ∧ q.vx = p.vx ∧ q.vy = p.vy ∧
          q.pinned = true :=
  ⟨demoState_inRange, pinned_invariant Rat.sqrt 3 demoState demoState_inRange⟩

/-- Witness of C3 on the two unpinned particles `demoLeft`, `demoRight`. -/
theorem spring_pass_symmetry_witness :
    (demoLeft.pinned = false ∧ demoRight.pinned = false ∧
      ((demoSpring.a = 0 ∧ demoSpring.b = 1) ∨ (demoSpring.a = 1 ∧ demoSpring.b = 0))) ∧
    ∃ q0 q1, springPass Rat.sqrt [demoSpring] [demoLeft, demoRight] = some [q0, q1] ∧
      q0.vx - demoLeft.vx = -(q1.vx - demoRight.vx) ∧
      q0.vy - demoLeft.vy = -(q1.vy - demoRight.vy) ∧
      q0.vx + q1.vx = demoLeft.vx + demoRight.vx ∧ q0.vy + q1.vy = demoLeft.vy + demoRight.vy :=
  ⟨⟨rfl, rfl, Or.inl ⟨rfl, rfl⟩⟩,
    spring_pass_symmetry Rat.sqrt demoLeft demoRight demoSpring rfl rfl (Or.inl ⟨rfl, rfl⟩)⟩

/-- Witness of C6 on the 2 by 2 grid with spacing 1 and stiffness 10. -/
theorem structural_springs_witness :
    ((0 : Int) < 2 ∧ (0 : Int) < 2) ∧
    ((∀ sp : Spring ℚ, sp ∈ (createSoftBody 2 2 (1 : ℚ) 10 State.empty).springs ↔
      (∃ i j : Int, 0 ≤ i ∧ i < 2 ∧ 0 ≤ j ∧ j < 2 - 1 ∧
        sp = { a := i * 2 + j, b := i * 2 + j + 1, restLength := 1, k := 10 }) ∨
      (∃ i j : Int, 0 ≤ i ∧ i < 2 - 1 ∧ 0 ≤ j ∧ j < 2 ∧
        sp = { a := i * 2 + j, b := (i + 1) * 2 + j, restLength := 1, k := 10 })) ∧
    (∀ sp ∈ (createSoftBody 2 2 (1 : ℚ) 10 State.empty).springs,
      sp.restLength = 1 ∧ sp.k = 10) ∧
    ((createSoftBody 2 2 (1 : ℚ) 10 State.empty).springs.map (fun sp => (sp.a, sp.b))).Nodup ∧
    ((createSoftBody 2 2 (1 : ℚ) 10 State.empty).springs.length : Int)
      = 2 * (2 - 1) + (2 - 1) * 2) :=
  ⟨⟨by decide, by decide⟩, structural_springs 2 2 (1 : ℚ) 10 (by decide) (by decide)⟩

/-- Witness of C7 on the 2 by 2 grid with spacing 1 and stiffness 10. -/
theorem spring_index_validity_witness :
    ((0 : Int) < 2 ∧ (0 : Int) < 2) ∧
    ((∀ sp ∈ (createSoftBody 2 2 (1 : ℚ) 10 State.empty).springs,
      0 ≤ sp.a ∧ sp.a < 2 * 2 ∧ 0 ≤ sp.b ∧ sp.b < 2 * 2 ∧ sp.a ≠ sp.b) ∧
    ∀ n : Nat, ∃ st,
      updatePhysicsN Rat.sqrt n (createSoftBody 2 2 (1 : ℚ) 10 State.empty) = some st ∧
      st.springs = (createSoftBody 2 2 (1 : ℚ) 10 State.empty).springs ∧
      (st.particles.length : Int) = 2 * 2 ∧
      ∀ sp ∈ st.springs,
        0 ≤ sp.a ∧ sp.a < (st.particles.length : Int) ∧
        0 ≤ sp.b ∧ sp.b < (st.particles.length : Int) ∧ sp.a ≠ sp.b ∧
        (getParticle st.particles sp.a).isSome = true ∧
        (getParticle st.particles sp.b).isSome = true) :=
  ⟨⟨by decide, by decide⟩,
    spring_index_validity Rat.sqrt 2 2 (1 : ℚ) 10 (by decide) (by decide)⟩

/-- Witness of C8: `createSoftBody(2, 2, 1.0, 10.0)` followed by one `updatePhysics`. -/
theorem first_step_after_build_witness :
    ((∀ x : ℚ, 0 ≤ x → Rat.sqrt (x * x) = x) ∧ (0 : Int) < 2 ∧ (0 : Int) < 2 ∧ (0 : ℚ) < 1) ∧
    ((∀ sp ∈ (createSoftBody 2 2 (1 : ℚ) 10 State.empty).springs,
      ∃ p1 p2,
        getParticle (createSoftBody 2 2 (1 : ℚ) 10 State.empty).particles sp.a = some p1 ∧
        getParticle (createSoftBody 2 2 (1 : ℚ) 10 State.empty).particles sp.b = some p2 ∧
        specDist Rat.sqrt p1 p2 = sp.restLength) ∧
    springPass Rat.sqrt (createSoftBody 2 2 (1 : ℚ) 10 State.empty).springs
        (createSoftBody 2 2 (1 : ℚ) 10 State.empty).particles
      = some (createSoftBody 2 2 (1 : ℚ) 10 State.empty).particles ∧
    ∃ st, updatePhysics Rat.sqrt (createSoftBody 2 2 (1 : ℚ) 10 State.empty) = some st ∧
      ∀ (n : Nat) (p : Particle ℚ),
        (createSoftBody 2 2 (1 : ℚ) 10 State.empty).particles[n]? = some p →
        ∃ q, st.particles[n]? = some q ∧
          (p.pinned = true → q.x = p.x ∧ q.y = p.y ∧ q = p) ∧
          (p.pinned = false →
            q.x = p.x ∧ q.vx = 0 ∧ q.vy = GRAVITY * TIMESTEP ∧
            q.y = p.y + GRAVITY * TIMESTEP * TIMESTEP ∧ q.y < p.y)) :=
  ⟨⟨rat_sqrt_mul_self, by decide, by decide, by decide⟩,
    first_step_after_build Rat.sqrt rat_sqrt_mul_self 2 2 (1 : ℚ) 10 (by decide) (by decide)
      (by decide)⟩

/-- Counterexample to C9: `createSoftBody(2, 2, -1, 0)` has `spacing ≤ 0` and
`stiffness ≤ 0`, and it still builds 4 particles and 4 springs. -/
theorem invalid_parameters_counterexample :
    (-1 : ℚ) ≤ 0 ∧ (0 : ℚ) ≤ 0 ∧
    (createSoftBody 2 2 (-1 : ℚ) 0 State.empty).particles.length = 4 ∧
    (createSoftBody 2 2 (-1 : ℚ) 0 State.empty).springs.length = 4 ∧
    createSoftBody 2 2 (-1 : ℚ) 0 State.empty ≠ State.empty := by
  refine ⟨by decide, by decide, by decide, by decide, ?_⟩
  intro h
  have hlen : (createSoftBody 2 2 (-1 : ℚ) 0 State.empty).particles.length = 4 := by decide
  rw [h] at hlen
  exact absurd hlen (by decide)

/-- Witness of the amended C9: with `rows = 0` nothing is built. -/
theorem createSoftBody_no_failure_witness :
    createSoftBody 0 5 (1 : ℚ) 1 State.empty = State.empty :=
  (createSoftBody_no_failure 0 5 (1 : ℚ) 1).1 (Or.inl (by decide))

/-- Counterexample to C10: `createSoftBody(2, 1, 1, 10)` has `rows > 0` and `cols > 0`, the two
corner indices `(rows-1)*cols` and `rows*cols - 1` are the same index 1, and exactly one
particle is pinned. -/
theorem two_pinned_counterexample :
    (0 : Int) < 2 ∧ (0 : Int) < 1 ∧ ((2 : Int) - 1) * 1 = 2 * 1 - 1 ∧
    List.countP (fun p : Particle ℚ => p.pinned)
      (createSoftBody 2 1 (1 : ℚ) 10 State.empty).particles = 1 ∧
    List.countP (fun p : Particle ℚ => p.pinned)
      (createSoftBody 2 1 (1 : ℚ) 10 State.empty).particles ≠ 2 := by
  refine ⟨by decide, by decide, by decide, by decide, by decide⟩

/-- Witness of the amended C10 on the 2 by 2 grid with spacing 1 and stiffness 10. -/
theorem pinned_corners_witness :
    ((0 : Int) < 2 ∧ (0 : Int) < 2) ∧
    ((∀ (n : Nat) (p : Particle ℚ),
      (createSoftBody 2 2 (1 : ℚ) 10 State.empty).particles[n]? = some p →
      (p.pinned = true ↔ ((n : Int) = (2 - 1) * 2 ∨ (n : Int) = 2 * 2 - 1))) ∧
    (∃ p, getParticle (createSoftBody 2 2 (1 : ℚ) 10 State.empty).particles ((2 - 1) * 2)
        = some p ∧ p.pinned = true) ∧
    (∃ p, getParticle (createSoftBody 2 2 (1 : ℚ) 10 State.empty).particles (2 * 2 - 1)
        = some p ∧ p.pinned = true) ∧
    (((2 : Int) - 1) * 2 ≠ 2 * 2 - 1 ↔ (2 : Int) ≠ 1) ∧
    List.countP (fun p : Particle ℚ => p.pinned)
        (createSoftBody 2 2 (1 : ℚ) 10 State.empty).particles
      = (if (2 : Int) = 1 then 1 else 2)) :=
  ⟨⟨by decide, by decide⟩, pinned_corners 2 2 (1 : ℚ) 10 (by decide) (by decide)⟩

/-- The state built by `createSoftBody(2, 2, 1.0, 10.0)`, evaluated. -/
theorem createSoftBody_example :
    createSoftBody 2 2 (1 : ℚ) 10 State.empty =
      { particles :=
          [{ x := -1, y := 1 / 2, vx := 0, vy := 0, pinned := false },
           { x := 0, y := 1 / 2, vx := 0, vy := 0, pinned := false },
           { x := -1, y := 3 / 2, vx := 0, vy := 0, pinned := true },
           { x := 0, y := 3 / 2, vx := 0, vy := 0, pinned := true }]
        springs :=
          [{ a := 0, b := 1, restLength := 1, k := 10 },
           { a := 0, b := 2, restLength := 1, k := 10 },
           { a := 1, b := 3, restLength := 1, k := 10 },
           { a := 2, b := 3, restLength := 1, k := 10 }] } := by
  simp [createSoftBody, forLoop, mkParticle, pushSprings, State.empty, List.range_succ]
  norm_num

/-- One `updatePhysics` call on the state built by `createSoftBody(2, 2, 1.0, 10.0)`, evaluated:
particles 2 and 3 are pinned and stay, particles 0 and 1 move down. -/
theorem updatePhysics_example :
    updatePhysics Rat.sqrt (createSoftBody 2 2 (1 : ℚ) 10 State.empty) =
      some {
        particles :=
          [{ x := -1, y := 78053 / 156250, vx := 0, vy := -18 / 625, pinned := false },
           { x := 0, y := 78053 / 156250, vx := 0, vy := -18 / 625, pinned := false },
           { x := -1, y := 3 / 2, vx := 0, vy := 0, pinned := true },
           { x := 0, y := 3 / 2, vx := 0, vy := 0, pinned := true }]
        springs :=
          [{ a := 0, b := 1, restLength := 1, k := 10 },
           { a := 0, b := 2, restLength := 1, k := 10 },
           { a := 1, b := 3, restLength := 1, k := 10 },
           { a := 2, b := 3, restLength := 1, k := 10 }] } := by
  rw [createSoftBody_example]
  have h1 : Rat.sqrt 1 = 1 := by simp
  have hpass : ∀ (ps : List (Particle ℚ)) (sp : List (Spring ℚ)),
      ps = [{ x := -1, y := 1 / 2, vx := 0, vy := 0, pinned := false },
            { x := 0, y := 1 / 2, vx := 0, vy := 0, pinned := false },
            { x := -1, y := 3 / 2, vx := 0, vy := 0, pinned := true },
            { x := 0, y := 3 / 2, vx := 0, vy := 0, pinned := true }] →
      sp = [{ a := 0, b := 1, restLength := 1, k := 10 },
            { a := 0, b := 2, restLength := 1, k := 10 },
            { a := 1, b := 3, restLength := 1, k := 10 },
            { a := 2, b := 3, restLength := 1, k := 10 }] →
      springPass Rat.sqrt sp ps = some ps := by
    intro ps sp hps hsp
    refine springPass_fixed Rat.sqrt ps sp (fun s hs => ?_)
    rw [hsp] at hs
    simp only [List.mem_cons, List.mem_singleton, List.not_mem_nil, or_false] at hs
    rcases hs with rfl | rfl | rfl | rfl <;> rw [hps]
    · exact @applySpring_rest ℚ _ Rat.sqrt _ _
        { x := -1, y := 1 / 2, vx := 0, vy := 0, pinned := false }
        { x := 0, y := 1 / 2, vx := 0, vy := 0, pinned := false } rfl rfl (by decide)
        (by norm_num [specDist, h1])
    · exact @applySpring_rest ℚ _ Rat.sqrt _ _
        { x := -1, y := 1 / 2, vx := 0, vy := 0, pinned := false }
        { x := -1, y := 3 / 2, vx := 0, vy := 0, pinned := true } rfl rfl (by decide)
        (by norm_num [specDist, h1])
    · exact @applySpring_rest ℚ _ Rat.sqrt _ _
        { x := 0, y := 1 / 2, vx := 0, vy := 0, pinned := false }
        { x := 0, y := 3 / 2, vx := 0, vy := 0, pinned := true } rfl rfl (by decide)
        (by norm_num [specDist, h1])
    · exact @applySpring_rest ℚ _ Rat.sqrt _ _
        { x := -1, y := 3 / 2, vx := 0, vy := 0, pinned := true }
        { x := 0, y := 3 / 2, vx := 0, vy := 0, pinned := true } rfl rfl (by decide)
        (by norm_num [specDist, h1])
  simp only [updatePhysics, hpass _ _ rfl rfl, Option.bind_eq_bind, Option.some_bind,
    Option.pure_def, integratePass, List.map_cons, List.map_nil]
  norm_num [integrate, GRAVITY, TIMESTEP]

/-! The binary32 model: the integer square root and the rounding are what they should be. -/

namespace F32

theorem isqrtLoop_spec (b : Nat) : ∀ (n r : Nat), r * r ≤ n → n < (r + 2 ^ b) * (r + 2 ^ b) →
    isqrtLoop b n r * isqrtLoop b n r ≤ n ∧
      n < (isqrtLoop b n r + 1) * (isqrtLoop b n r + 1) := by
  induction b with
  | zero =>
    intro n r h1 h2
    simpa [isqrtLoop] using ⟨h1, h2⟩
  | succ b ih =>
    intro n r h1 h2
    unfold isqrtLoop
    by_cases hc : (r + 2 ^ b) * (r + 2 ^ b) ≤ n
    · rw [if_pos hc]
      refine ih n (r + 2 ^ b) hc ?_
      have e : r + 2 ^ b + 2 ^ b = r + 2 ^ (b + 1) := by rw [pow_succ]; ring
      rw [e]
      exact h2
    · rw [if_neg hc]
      exact ih n r h1 (not_le.mp hc)

theorem bitLenLoop_spec (fuel : Nat) : ∀ (n acc : Nat), n ≤ fuel →
    acc ≤ bitLenLoop fuel n acc ∧ n < 2 ^ (bitLenLoop fuel n acc - acc) := by
  induction fuel with
  | zero =>
    intro n acc h
    have : n = 0 := by omega
    subst this
    simp [bitLenLoop]
  | succ fuel ih =>
    intro n acc h
    unfold bitLenLoop
    by_cases hn : n = 0
    · subst hn
      simp
    · rw [if_neg hn]
      obtain ⟨h1, h2⟩ := ih (n / 2) (acc + 1) (by omega)
      refine ⟨by omega, ?_⟩
      have e : bitLenLoop fuel (n / 2) (acc + 1) - acc
          = (bitLenLoop fuel (n / 2) (acc + 1) - (acc + 1)) + 1 := by omega
      rw [e, pow_succ]
      omega

/-- The number `n` has at most `bitLen n` binary digits. -/
theorem lt_two_pow_bitLen (n : Nat) : n < 2 ^ bitLen n := by
  have h := (bitLenLoop_spec n n 0 (le_refl n)).2
  simpa [bitLen] using h

/-- The function `isqrt` is the integer square root: `isqrt n` is the largest `s` with
`s * s ≤ n`. -/
theorem isqrt_spec (n : Nat) : isqrt n * isqrt n ≤ n ∧ n < (isqrt n + 1) * (isqrt n + 1) := by
  unfold isqrt
  refine isqrtLoop_spec _ n 0 (Nat.zero_le n) ?_
  have h1 := lt_two_pow_bitLen n
  have h2 : bitLen n ≤ 2 * (bitLen n / 2 + 1) := by omega
  have h3 : 2 ^ bitLen n ≤ 2 ^ (2 * (bitLen n / 2 + 1)) :=
    Nat.pow_le_pow_right (by decide) h2
  have h4 : (0 + 2 ^ (bitLen n / 2 + 1)) * (0 + 2 ^ (bitLen n / 2 + 1))
      = 2 ^ (2 * (bitLen n / 2 + 1)) := by
    rw [Nat.zero_add, ← pow_add]; congr 1; omega
  rw [h4]
  omega

/-- The function `roundUnits` returns a point of the binary32 grid at the magnitude of `n / d`
(a multiple of `2 ^ shift`) that is within half a grid step of `n / d`, for `d > 0`. -/
theorem roundUnits_near (n d k : Nat) (hd : 0 < d) (h : roundUnits n d = some k) :
    2 ^ (bitLen (n / d) - 24) ∣ k ∧
    2 * ((k : Int) * d - n) ≤ d * 2 ^ (bitLen (n / d) - 24) ∧
    2 * ((n : Int) - k * d) ≤ d * 2 ^ (bitLen (n / d) - 24) := by
  unfold roundUnits at h
  simp only [Nat.shiftLeft_eq] at h
  generalize bitLen (n / d) - 24 = sh at h ⊢
  have hdiv := Nat.div_add_mod n (d * 2 ^ sh)
  have hmod : n % (d * 2 ^ sh) < d * 2 ^ sh :=
    Nat.mod_lt n (Nat.mul_pos hd (pow_pos (by decide) sh))
  generalize n / (d * 2 ^ sh) = q2 at h hdiv
  generalize n % (d * 2 ^ sh) = r2 at h hdiv hmod
  have hn : (n : Int) = ((d * 2 ^ sh : Nat) : Int) * q2 + r2 := by exact_mod_cast hdiv.symm
  have hD : ((d : Int) * 2 ^ sh) = ((d * 2 ^ sh : Nat) : Int) := by push_cast; ring
  by_cases hup : (decide (d * 2 ^ sh < 2 * r2)
      || (decide (2 * r2 = d * 2 ^ sh) && decide (q2 % 2 = 1))) = true
  · rw [if_pos hup] at h
    have hle : d * 2 ^ sh ≤ 2 * r2 := by
      simp only [Bool.or_eq_true, Bool.and_eq_true, decide_eq_true_eq] at hup
      rcases hup with h1 | ⟨h1, _⟩ <;> omega
    have hk : k = (q2 + 1) * 2 ^ sh := by
      split_ifs at h
      exact (Option.some.inj h).symm
    have e : (k : Int) * d = ((d * 2 ^ sh : Nat) : Int) * q2 + ((d * 2 ^ sh : Nat) : Int) := by
      rw [hk]; push_cast; ring
    have hle2 : ((d * 2 ^ sh : Nat) : Int) ≤ 2 * (r2 : Int) := by exact_mod_cast hle
    have hr0 : (0 : Int) ≤ (r2 : Int) := Int.natCast_nonneg r2
    have hmod2 : (r2 : Int) ≤ ((d * 2 ^ sh : Nat) : Int) := by exact_mod_cast le_of_lt hmod
    refine ⟨⟨q2 + 1, by rw [hk, Nat.mul_comm]⟩, ?_, ?_⟩
    · rw [e, hn, hD]; linarith
    · rw [e, hn, hD]; linarith
  · rw [if_neg hup] at h
    have hle : 2 * r2 ≤ d * 2 ^ sh := by
      simp only [Bool.or_eq_true, Bool.and_eq_true, decide_eq_true_eq, not_or] at hup
      omega
    have hk : k = q2 * 2 ^ sh := by
      split_ifs at h
      exact (Option.some.inj h).symm
    have e : (k : Int) * d = ((d * 2 ^ sh : Nat) : Int) * q2 := by
      rw [hk]; push_cast; ring
    have hle2 : 2 * (r2 : Int) ≤ ((d * 2 ^ sh : Nat) : Int) := by exact_mod_cast hle
    have hr0 : (0 : Int) ≤ (r2 : Int) := Int.natCast_nonneg r2
    refine ⟨⟨q2, by rw [hk, Nat.mul_comm]⟩, ?_, ?_⟩
    · rw [e, hn, hD]; linarith
    · rw [e, hn, hD]; linarith

end F32

/-! Worked examples in binary32: what the program computes, evaluated. -/

set_option maxRecDepth 100000

/-- The two facts about the order that the theorems on the running program assume hold in
binary32. -/
theorem f32_guard_floor : ¬ ((0.0001 : F32) < 0) ∧ ¬ ((-0.9 : F32) < -0.9) := by
  constructor <;> decide

/-- The constants of the program in binary32: `0.016f`, `-1.8f`, `0.0001f`, `-0.9f`, `-0.3f`. -/
theorem f32_constants :
    (TIMESTEP : F32) = F32.dyadic 8589935 (-29) ∧ (GRAVITY : F32) = F32.dyadic (-7549747) (-22) ∧
    (0.0001 : F32) = F32.dyadic 13743895 (-37) ∧ (-0.9 : F32) = F32.dyadic (-7549747) (-23) ∧
    (-0.3 : F32) = F32.dyadic (-5033165) (-24) := by
  refine ⟨by decide, by decide, by decide, by decide, by decide⟩

/-- Counterexample to C2.  First, from the finite in-range state `farState` one `updatePhysics`
call returns unpinned particles whose `y` is NaN, so `y ≥ -0.9` fails: `dx * dx` overflows to
`+inf`, `dist` is `+inf`, `dx / dist` is `0` and `0 * inf` is NaN.  Second, from `fallingState`
the step crosses the floor and returns `y = -0.9f` and `vy = vy2 * -0.3f` rounded, with
`vy2 = -13110975 * 2^-17`: as exact numbers `y` is not `-0.9` and `vy` is not `-0.3 * vy2`.
Third, on a state whose spring indexes outside the particle vector the call has no result
(`particles[s.b]` is undefined in C++), so the claim can only be about in-range states. -/
theorem floor_collision_counterexample :
    (SpringsInRange farState ∧
      updatePhysics F32.sqrt farState = some {
        particles :=
          [{ x := F32.nan, y := F32.nan, vx := F32.nan, vy := F32.nan, pinned := false },
           { x := F32.nan, y := F32.nan, vx := F32.nan, vy := F32.nan, pinned := false }]
        springs := farState.springs } ∧
      ¬ ((-0.9 : F32) ≤ F32.nan)) ∧
    (updatePhysics F32.sqrt fallingState = some {
        particles :=
          [{ x := 0.0, y := F32.dyadic (-7549747) (-23), vx := 0.0,
             vy := F32.dyadic 15733171 (-19), pinned := false }]
        springs := [] } ∧
      (-100.0 : F32) + GRAVITY * TIMESTEP = F32.dyadic (-13110975) (-17) ∧
      F32.toRat (F32.dyadic (-7549747) (-23)) = some (-7549747 / 8388608) ∧
      (-7549747 / 8388608 : ℚ) ≠ -0.9 ∧
      F32.toRat (F32.dyadic 15733171 (-19)) = some (15733171 / 524288) ∧
      F32.toRat (F32.dyadic (-13110975) (-17)) = some (-13110975 / 131072) ∧
      (15733171 / 524288 : ℚ) ≠ -0.3 * (-13110975 / 131072)) ∧
    updatePhysics F32.sqrt { particles := [nearLeft], springs := [stiffSpring] } = none := by
  refine ⟨⟨?_, by decide, by decide⟩, ⟨by decide, by decide, ?_, by norm_num, ?_, ?_,
    by norm_num⟩, by decide⟩
  · intro s hs
    simp only [farState, List.mem_singleton] at hs
    subst hs
    simp [farState]
  · simp [F32.toRat, F32.dyadic]; norm_num
  · simp [F32.toRat, F32.dyadic]; norm_num
  · simp [F32.toRat, F32.dyadic]; norm_num

/-- Counterexample to C4.  First, between `nearLeft` and `nearRight` the exact distance is
above `0.0001` (its square is above `1e-8`), so the claim read exactly asks for a kick, but the
distance the code computes is `0.0001f`, the test `dist > 0.0001f` fails and the code leaves
both particles unchanged.  Second, between two particles at `x = +inf` the computed distance is
NaN: it is not `≤ 0.0001`, so the claim asks for a kick, which would make the velocity NaN, but
the test `dist > 0.0001f` fails and the code leaves both particles unchanged.  Third, `dt` is
`0.016f`, which is not the number `0.016`. -/
theorem spring_force_rule_counterexample :
    (F32.toRat nearRight.x = some (8246307 / 2 ^ 37) ∧
      F32.toRat nearRight.y = some (10995139 / 2 ^ 37) ∧
      ((0.0001 : ℚ)) ^ 2 < (8246307 / 2 ^ 37 - 0) ^ 2 + (10995139 / 2 ^ 37 - 0) ^ 2 ∧
      specDist F32.sqrt nearLeft nearRight = (0.0001 : F32) ∧
      applySpring F32.sqrt [nearLeft, nearRight] stiffSpring = some [nearLeft, nearRight]) ∧
    (specDist F32.sqrt lostParticle lostParticle = F32.nan ∧
      ¬ (specDist F32.sqrt lostParticle lostParticle ≤ 0.0001) ∧
      (specKickA F32.sqrt stiffSpring lostParticle lostParticle).vx = F32.nan ∧
      applySpring F32.sqrt [lostParticle, lostParticle] stiffSpring
        = some [lostParticle, lostParticle]) ∧
    (F32.toRat (TIMESTEP : F32) = some (8589935 / 536870912) ∧
      (8589935 / 536870912 : ℚ) ≠ 0.016) := by
  refine ⟨⟨?_, ?_, by norm_num, by decide, by decide⟩, ⟨by decide, by decide, by decide,
    by decide⟩, ?_, by norm_num⟩
  · simp [nearRight, F32.toRat, F32.dyadic]; norm_num
  · simp [nearRight, F32.toRat, F32.dyadic]; norm_num
  · have h : (TIMESTEP : F32) = F32.dyadic 8589935 (-29) := by decide
    rw [h]
    simp [F32.toRat, F32.dyadic]; norm_num

/-- Counterexample to C5 on the call `createSoftBody(6, 6, 0.15f, 100.0f)` of `main`: the
particle of index 5 (`i = 0`, `j = 5`) is stored with `x = 10066329 * 2^-25`, while with
`spacing = 0.15f = 5033165 * 2^-25` the exact value of `j*spacing - (cols*spacing)/2` is
`10066330 * 2^-25`. -/
theorem particle_grid_counterexample :
    getParticle (createSoftBody 6 6 (0.15 : F32) 100.0 State.empty).particles (0 * 6 + 5)
      = some { x := F32.dyadic 10066329 (-25), y := 0.5, vx := 0.0, vy := 0.0,
               pinned := false } ∧
    F32.toRat (F32.dyadic 10066329 (-25)) = some (10066329 / 33554432) ∧
    F32.toRat (0.15 : F32) = some (5033165 / 33554432) ∧
    (5 : ℚ) * (5033165 / 33554432) - (6 * (5033165 / 33554432)) / 2 = 10066330 / 33554432 ∧
    (10066329 / 33554432 : ℚ) ≠ 10066330 / 33554432 := by
  refine ⟨by decide, ?_, ?_, by norm_num, by norm_num⟩
  · simp [F32.toRat, F32.dyadic]; norm_num
  · have h : (0.15 : F32) = F32.dyadic 5033165 (-25) := by decide
    rw [h]
    simp [F32.toRat, F32.dyadic]; norm_num

/-- Witness of the amended C2: binary32 with `F32.sqrt` for the running program, `ℚ` with
`Rat.sqrt` for the exact reading. -/
theorem floor_collision_witness :
    (¬ ((0.0001 : F32) < 0) ∧ ¬ ((-0.9 : F32) < -0.9)) ∧
    ((∀ st : State F32, SpringsInRange st →
      (∃ ps1 st2, springPass F32.sqrt st.springs st.particles = some ps1 ∧
        updatePhysics F32.sqrt st = some st2 ∧
        ∀ (i : Nat) (p : Particle F32), st.particles[i]? = some p → p.pinned = false →
          ∃ q r, ps1[i]? = some q ∧ st2.particles[i]? = some r ∧ q.y = p.y ∧
            ¬ (r.y < -0.9) ∧
            (p.y + (q.vy + GRAVITY * TIMESTEP) * TIMESTEP < -0.9 →
              r.y = -0.9 ∧ r.vy = (q.vy + GRAVITY * TIMESTEP) * -0.3) ∧
            (¬ (p.y + (q.vy + GRAVITY * TIMESTEP) * TIMESTEP < -0.9) →
              r.y = p.y + (q.vy + GRAVITY * TIMESTEP) * TIMESTEP ∧
              r.vy = q.vy + GRAVITY * TIMESTEP)) ∧
      ∀ n : Nat, ∃ st3, updatePhysicsN F32.sqrt (n + 1) st = some st3 ∧
        ∀ (i : Nat) (p : Particle F32), st.particles[i]? = some p → p.pinned = false →
          ∃ r, st3.particles[i]? = some r ∧ ¬ (r.y < -0.9)) ∧
    (∀ st : State ℚ, SpringsInRange st →
      (∃ ps1 st2, springPass Rat.sqrt st.springs st.particles = some ps1 ∧
        updatePhysics Rat.sqrt st = some st2 ∧
        ∀ (i : Nat) (p : Particle ℚ), st.particles[i]? = some p → p.pinned = false →
          ∃ q r, ps1[i]? = some q ∧ st2.particles[i]? = some r ∧ q.y = p.y ∧
            (-0.9 : ℚ) ≤ r.y ∧
            (p.y + (q.vy + GRAVITY * TIMESTEP) * TIMESTEP < -0.9 →
              r.y = -0.9 ∧ r.vy = -0.3 * (q.vy + GRAVITY * TIMESTEP) ∧
              (-0.9 ≤ p.y →
                q.vy + GRAVITY * TIMESTEP < 0 ∧ 0 < r.vy ∧
                |r.vy| = 0.3 * |q.vy + GRAVITY * TIMESTEP|))) ∧
      ∀ n : Nat, ∃ st3, updatePhysicsN Rat.sqrt (n + 1) st = some st3 ∧
        ∀ (i : Nat) (p : Particle ℚ), st.particles[i]? = some p → p.pinned = false →
          ∃ r, st3.particles[i]? = some r ∧ (-0.9 : ℚ) ≤ r.y)) :=
  ⟨f32_guard_floor,
    floor_collision F32.sqrt f32_guard_floor.1 f32_guard_floor.2 Rat.sqrt⟩

/-- Witness of the amended C4: binary32 with `F32.sqrt` for the running program, `ℚ` with
`Rat.sqrt` for the exact reading. -/
theorem spring_force_rule_witness :
    (¬ ((0.0001 : F32) < 0) ∧ Rat.sqrt 0 = 0) ∧
    ((∀ (ps : List (Particle F32)) (s : Spring F32) (p1 p2 : Particle F32),
      getParticle ps s.a = some p1 → getParticle ps s.b = some p2 →
      (¬ (0.0001 < specDist F32.sqrt p1 p2) → applySpring F32.sqrt ps s = some ps) ∧
      (0.0001 < specDist F32.sqrt p1 p2 →
        specDist F32.sqrt p1 p2 ≠ 0 ∧
        (checkedDiv (p2.x - p1.x) (specDist F32.sqrt p1 p2)).isSome = true ∧
        (checkedDiv (p2.y - p1.y) (specDist F32.sqrt p1 p2)).isSome = true ∧
        (s.a ≠ s.b →
          ∃ ps2, applySpring F32.sqrt ps s = some ps2 ∧ ps2.length = ps.length ∧
            getParticle ps2 s.a = some (specKickA F32.sqrt s p1 p2) ∧
            getParticle ps2 s.b = some (specKickB F32.sqrt s p1 p2) ∧
            ∀ i : Int, i ≠ s.a → i ≠ s.b → getParticle ps2 i = getParticle ps i))) ∧
    (∀ (ps : List (Particle ℚ)) (s : Spring ℚ) (p1 p2 : Particle ℚ),
      getParticle ps s.a = some p1 → getParticle ps s.b = some p2 →
      (specDist Rat.sqrt p1 p2 ≤ 0.0001 → applySpring Rat.sqrt ps s = some ps) ∧
      (p1.x = p2.x → p1.y = p2.y →
        specDist Rat.sqrt p1 p2 = 0 ∧ applySpring Rat.sqrt ps s = some ps) ∧
      (0.0001 < specDist Rat.sqrt p1 p2 →
        specDist Rat.sqrt p1 p2 ≠ 0 ∧
        (checkedDiv (p2.x - p1.x) (specDist Rat.sqrt p1 p2)).isSome = true ∧
        (checkedDiv (p2.y - p1.y) (specDist Rat.sqrt p1 p2)).isSome = true ∧
        ∃ ps2, applySpring Rat.sqrt ps s = some ps2 ∧ ps2.length = ps.length ∧
          getParticle ps2 s.a = some (specKickA Rat.sqrt s p1 p2) ∧
          getParticle ps2 s.b = some (specKickB Rat.sqrt s p1 p2) ∧
          ∀ i : Int, i ≠ s.a → i ≠ s.b → getParticle ps2 i = getParticle ps i) ∧
      specForceX Rat.sqrt s p1 p2
        = (p2.x - p1.x) / specDist Rat.sqrt p1 p2 * s.k
            * (specDist Rat.sqrt p1 p2 - s.restLength) ∧
      specForceY Rat.sqrt s p1 p2
        = (p2.y - p1.y) / specDist Rat.sqrt p1 p2 * s.k
            * (specDist Rat.sqrt p1 p2 - s.restLength) ∧
      (TIMESTEP : ℚ) = 0.016)) :=
  ⟨⟨f32_guard_floor.1, rat_sqrt_zero⟩,
    spring_force_rule F32.sqrt f32_guard_floor.1 Rat.sqrt rat_sqrt_zero⟩

/-- Witness of the amended C5 in binary32, on the call `createSoftBody(6, 6, 0.15f, 100.0f)`
of `main`. -/
theorem particle_grid_witness :
    ((0 : Int) < 6 ∧ (0 : Int) < 6) ∧
    (((createSoftBody 6 6 (0.15 : F32) 100.0 State.empty).particles.length : Int) = 6 * 6 ∧
    ∀ i j : Int, 0 ≤ i → i < 6 → 0 ≤ j → j < 6 →
      ∃ p, getParticle (createSoftBody 6 6 (0.15 : F32) 100.0 State.empty).particles
            (i * 6 + j) = some p ∧
        p.x = (j : F32) * 0.15 - (((6 : Int) : F32) * 0.15) / 2.0 ∧
        p.y = (i : F32) * 0.15 + 0.5 ∧ p.vx = 0.0 ∧ p.vy = 0.0 ∧
        (p.pinned = true ↔ (i = 6 - 1 ∧ (j = 0 ∨ j = 6 - 1)))) :=
  ⟨⟨by decide, by decide⟩, particle_grid 6 6 (0.15 : F32) 100.0 (by decide) (by decide)⟩

end SoftBody
